import Mathlib

/-!
MultiQueueProcessor, a keyed queue multiplexer.

A shallow embedding of `src/MultiQueueProcessor.h`, followed by the properties of the
specification that were checked against it.

Modelling decisions.

* The embedding is sequential: one call runs at a time.  Both mutexes are recursive and every
  `lock()` of a call is matched before the call returns (by `unlock()` or by the destructor of the
  erased `SQueue`), so in a single thread they never block and they are left out of the state.
* `queues_` is a `std::map<Key, std::unique_ptr<SQueue>>`.  Only `find`, `emplace`, `erase` and
  mutation through the stored pointer are used by the four public operations, so the map is a
  function from keys to optional entries.
* A pointer `IConsumer<Key, Value>*` is an `Option Consumer`, `none` being `nullptr`.  A virtual
  call `subscriber_->Consume(id, value)` is an effect outside of the processor: it is recorded, in
  call order, in the list `consumed` of the outcome of the public operation that made it.
  Whether the call returns or exits with an exception is what the class `IConsumer` says of the
  consumer.  The header has no `try` block: an exception of `Consume` ends the operation that made
  the call, after the destructor of its `SQueueGuard` ran `UnaccessQueue`; the operation then ends
  as `Result.propagates`.  `Consume` is taken not to call back into the processor.
* An exception that the header itself throws is a value of `Thrown`, one constructor for each
  `throw` statement of the header.
* Calling `Consume` through a null `subscriber_` is undefined behaviour; a call that does so has no
  outcome (`none`).
-/

namespace MQP

/-- The macro `MaxCapacity` of the header. -/
def MaxCapacity : Nat := 1000

/-- The three exception classes of the standard library that the header throws. -/
inductive StdException
  | logic_error
  | invalid_argument
  | out_of_range
  deriving DecidableEq, Repr

/-- The `throw` statements of the header, in source order. -/
inductive Thrown
  /-- Thrown object `std::logic_error("Subscribe - unexpected, queue not exists")` -/
  | subscribeNoQueue
  /-- Thrown object `std::logic_error("Subscribe - queue already have a subscriber")` -/
  | alreadySubscribed
  /-- Thrown object `std::invalid_argument("Unsubscribe - invalid key value")` -/
  | unsubscribeUnknownKey
  /-- Thrown object `std::logic_error("Unsubscribe - queue have no subscriber")` -/
  | noSubscriber
  /-- Thrown object `std::logic_error("Enqueue - unexpected, queue not exists")` -/
  | enqueueNoQueue
  /-- Thrown object `std::logic_error("Enqueue - queue is full")` -/
  | queueFull
  /-- Thrown object `std::invalid_argument("Dequeue - invalid key value")` -/
  | dequeueUnknownKey
  /-- Thrown object `std::logic_error("Dequeue - queue has subscriber")` -/
  | hasSubscriber
  /-- Thrown object `std::out_of_range("Dequeue - queue is empty")` -/
  | queueEmpty
  deriving DecidableEq, Repr

/-- The class of the exception object of each `throw` statement. -/
def Thrown.stdClass : Thrown → StdException
  | .subscribeNoQueue => .logic_error
  | .alreadySubscribed => .logic_error
  | .unsubscribeUnknownKey => .invalid_argument
  | .noSubscriber => .logic_error
  | .enqueueNoQueue => .logic_error
  | .queueFull => .logic_error
  | .dequeueUnknownKey => .invalid_argument
  | .hasSubscriber => .logic_error
  | .queueEmpty => .out_of_range

/-- How a call ends: it returns a value, it throws at one of the `throw` statements of the header,
or it exits with the exception that a `Consume` call it made threw (the header does not catch
it). -/
inductive Result (ρ : Type)
  | returns (r : ρ)
  | throws (e : Thrown)
  | propagates
  deriving DecidableEq, Repr

/-- One call `consumer->Consume(id, value)`. -/
structure ConsumeCall (Key Value Consumer : Type) where
  consumer : Consumer
  id : Key
  value : Value
  deriving DecidableEq, Repr

/-- The interface `IConsumer<Key, Value>`, as far as the processor can tell a consumer from
another: `Consume consumer id value` is `true` when the call `consumer->Consume(id, value)` returns
and `false` when it exits with an exception. -/
class IConsumer (Key Value Consumer : Type) where
  Consume : Consumer → Key → Value → Bool

/-- The struct `SQueue`: the buffer `values_` and the pointer `subscriber_` (`nullptr` is `none`). -/
structure SQueue (Value Consumer : Type) where
  values_ : List Value := []
  subscriber_ : Option Consumer := none
  deriving DecidableEq, Repr

namespace SQueue

variable {Value Consumer : Type}

/-- Body: `values_.push_back(value);` -/
def Enqueue (q : SQueue Value Consumer) (value : Value) : SQueue Value Consumer :=
  { q with values_ := q.values_ ++ [value] }

/-- Body: `return values_.size() >= MaxCapacity;` -/
def IsFull (q : SQueue Value Consumer) : Bool :=
  decide (q.values_.length ≥ MaxCapacity)

/-- Body: `return values_.empty();` -/
def IsEmpty (q : SQueue Value Consumer) : Bool :=
  q.values_.isEmpty

/-- Body: `return nullptr != subscriber_;` -/
def HasSubscriber (q : SQueue Value Consumer) : Bool :=
  q.subscriber_.isSome

/-- Body: `subscriber_ = consumer;` -/
def Subscribe (q : SQueue Value Consumer) (consumer : Option Consumer) : SQueue Value Consumer :=
  { q with subscriber_ := consumer }

/-- Body: `subscriber_ = nullptr;` -/
def Unsubscribe (q : SQueue Value Consumer) : SQueue Value Consumer :=
  { q with subscriber_ := none }

/-- Body: `auto front = values_.front(); values_.pop_front(); return front;`.  `front()` of an empty
list is undefined, so the caller owes the proof that the queue is not empty. -/
def Dequeue (q : SQueue Value Consumer) (h : q.IsEmpty = false) :
    Value × SQueue Value Consumer :=
  (q.values_.head (by intro h0; simp [IsEmpty, h0] at h), { q with values_ := q.values_.tail })

end SQueue

/-- The class `MultiQueueProcessor`: the table `queues_`. -/
@[ext]
structure MultiQueueProcessor (Key Value Consumer : Type) where
  queues_ : Key → Option (SQueue Value Consumer)

/-- What a public operation leaves behind: the processor after the call, how the call ended, and
the `Consume` calls it made, in call order. -/
structure Outcome (Key Value Consumer ρ : Type) where
  state : MultiQueueProcessor Key Value Consumer
  result : Result ρ
  consumed : List (ConsumeCall Key Value Consumer)

namespace MultiQueueProcessor

variable {Key Value Consumer : Type} [DecidableEq Key] [IConsumer Key Value Consumer]

/-- The processor after its constructor: no entries. -/
def empty : MultiQueueProcessor Key Value Consumer :=
  ⟨fun _ => none⟩

/-- The call `queues_.emplace(id, q)`: it inserts only when the key has no entry. -/
def emplace (p : MultiQueueProcessor Key Value Consumer) (id : Key) (q : SQueue Value Consumer) :
    MultiQueueProcessor Key Value Consumer :=
  match p.queues_ id with
  | none => ⟨Function.update p.queues_ id (some q)⟩
  | some _ => p

/-- The call `queues_.erase(id)`. -/
def erase (p : MultiQueueProcessor Key Value Consumer) (id : Key) :
    MultiQueueProcessor Key Value Consumer :=
  ⟨Function.update p.queues_ id none⟩

/-- The effect on the table of the writes made through `pQueue`, the pointer to the entry of
`id`: that entry now holds `q`. -/
def store (p : MultiQueueProcessor Key Value Consumer) (id : Key) (q : SQueue Value Consumer) :
    MultiQueueProcessor Key Value Consumer :=
  ⟨Function.update p.queues_ id (some q)⟩

/-- The method `AccessQueue(id, bCreate)`: the table after the call and the entry that the returned pointer
designates (`none` is `nullptr`). -/
def AccessQueue (p : MultiQueueProcessor Key Value Consumer) (id : Key) (bCreate : Bool) :
    MultiQueueProcessor Key Value Consumer × Option (SQueue Value Consumer) :=
  match p.queues_ id with
  | none =>
    if bCreate then
      (p.emplace id {}, some {})
    else
      (p, none)
  | some q => (p, some q)

/-- The method `UnaccessQueue(pQueue, id)`, run by the destructor of the `SQueueGuard` on every exit path.
`pQueue` is the content of the entry of `id` as the body of the operation left it. -/
def UnaccessQueue (p : MultiQueueProcessor Key Value Consumer) (pQueue : SQueue Value Consumer)
    (id : Key) : MultiQueueProcessor Key Value Consumer :=
  if pQueue.IsEmpty && !pQueue.HasSubscriber then
    p.erase id
  else
    p.store id pQueue

/-- The loop of `Subscribe`,
`while (!pQueue->IsEmpty()) { value = pQueue->Dequeue(); pQueue->subscriber_->Consume(id, value); }`,
run on the buffer `values_` of the entry: the buffer it leaves, the `Consume` calls it makes, in
call order, and whether it ran to its end (`true`) or was left by an exception of `Consume`
(`false`), the value of that call being popped already.  `subscriber_` is not written by the loop.
The loop has no outcome when it calls through a null `subscriber_`. -/
def drain (id : Key) (subscriber_ : Option Consumer) :
    List Value → Option (List Value × List (ConsumeCall Key Value Consumer) × Bool)
  | [] => some ([], [], true)
  | value :: values_ =>
    match subscriber_ with
    | none => none
    | some c =>
      if IConsumer.Consume c id value then
        (drain id subscriber_ values_).map fun r => (r.1, ⟨c, id, value⟩ :: r.2.1, r.2.2)
      else
        some (values_, [⟨c, id, value⟩], false)

/-- The method `void Subscribe(Key id, IConsumer<Key, Value>* consumer)`. -/
def Subscribe (p : MultiQueueProcessor Key Value Consumer) (id : Key)
    (consumer : Option Consumer) : Option (Outcome Key Value Consumer Unit) :=
  match p.AccessQueue id true with
  | (p1, none) => some ⟨p1, .throws .subscribeNoQueue, []⟩
  | (p1, some pQueue) =>
    if pQueue.HasSubscriber then
      some ⟨p1.UnaccessQueue pQueue id, .throws .alreadySubscribed, []⟩
    else
      let pQueue1 := pQueue.Subscribe consumer
      match drain id pQueue1.subscriber_ pQueue1.values_ with
      | none => none
      | some (values_, calls, completed) =>
        some ⟨p1.UnaccessQueue { pQueue1 with values_ := values_ } id,
          if completed then .returns () else .propagates, calls⟩

/-- The method `void Unsubscribe(Key id)`. -/
def Unsubscribe (p : MultiQueueProcessor Key Value Consumer) (id : Key) :
    Outcome Key Value Consumer Unit :=
  match p.AccessQueue id false with
  | (p1, none) => ⟨p1, .throws .unsubscribeUnknownKey, []⟩
  | (p1, some pQueue) =>
    if !pQueue.HasSubscriber then
      ⟨p1.UnaccessQueue pQueue id, .throws .noSubscriber, []⟩
    else
      ⟨p1.UnaccessQueue pQueue.Unsubscribe id, .returns (), []⟩

/-- The method `void Enqueue(Key id, const Value& value)`. -/
def Enqueue (p : MultiQueueProcessor Key Value Consumer) (id : Key) (value : Value) :
    Outcome Key Value Consumer Unit :=
  match p.AccessQueue id true with
  | (p1, none) => ⟨p1, .throws .enqueueNoQueue, []⟩
  | (p1, some pQueue) =>
    if pQueue.IsFull then
      ⟨p1.UnaccessQueue pQueue id, .throws .queueFull, []⟩
    else
      match pQueue.subscriber_ with
      | some c =>
        ⟨p1.UnaccessQueue pQueue id,
          if IConsumer.Consume c id value then .returns () else .propagates, [⟨c, id, value⟩]⟩
      | none => ⟨p1.UnaccessQueue (pQueue.Enqueue value) id, .returns (), []⟩

/-- The method `Value Dequeue(Key id)`. -/
def Dequeue (p : MultiQueueProcessor Key Value Consumer) (id : Key) :
    Outcome Key Value Consumer Value :=
  match p.AccessQueue id false with
  | (p1, none) => ⟨p1, .throws .dequeueUnknownKey, []⟩
  | (p1, some pQueue) =>
    if pQueue.HasSubscriber then
      ⟨p1.UnaccessQueue pQueue id, .throws .hasSubscriber, []⟩
    else if h : pQueue.IsEmpty then
      ⟨p1.UnaccessQueue pQueue id, .throws .queueEmpty, []⟩
    else
      let r := pQueue.Dequeue (by simpa using h)
      ⟨p1.UnaccessQueue r.2 id, .returns r.1, []⟩

/-- The buffer of a key: the `values_` of its entry, nothing when the key has no entry. -/
def buffer (p : MultiQueueProcessor Key Value Consumer) (id : Key) : List Value :=
  match p.queues_ id with
  | none => []
  | some q => q.values_

/-- The subscriber of a key: the `subscriber_` of its entry, `none` when the key has no entry. -/
def subscriber (p : MultiQueueProcessor Key Value Consumer) (id : Key) : Option Consumer :=
  match p.queues_ id with
  | none => none
  | some q => q.subscriber_

end MultiQueueProcessor

/-- A call of one of the four public operations. -/
inductive Op (Key Value Consumer : Type)
  | Subscribe (id : Key) (consumer : Option Consumer)
  | Unsubscribe (id : Key)
  | Enqueue (id : Key) (value : Value)
  | Dequeue (id : Key)
  deriving DecidableEq, Repr

/-- A call that was made, with how it ended (`some value` is the value that `Dequeue` returned)
and the `Consume` calls made during it. -/
structure Event (Key Value Consumer : Type) where
  op : Op Key Value Consumer
  result : Result (Option Value)
  consumed : List (ConsumeCall Key Value Consumer)
  deriving DecidableEq, Repr

/-- A `void` return. -/
def Result.void {Value : Type} : Result Unit → Result (Option Value)
  | .returns _ => .returns none
  | .throws e => .throws e
  | .propagates => .propagates

/-- The return of a value. -/
def Result.value {Value : Type} : Result Value → Result (Option Value)
  | .returns v => .returns (some v)
  | .throws e => .throws e
  | .propagates => .propagates

namespace MultiQueueProcessor

variable {Key Value Consumer : Type} [DecidableEq Key] [IConsumer Key Value Consumer]

/-- One call on the processor: the processor after it and the event it leaves in the history. -/
def step (p : MultiQueueProcessor Key Value Consumer) (op : Op Key Value Consumer) :
    Option (MultiQueueProcessor Key Value Consumer × Event Key Value Consumer) :=
  match op with
  | .Subscribe id consumer =>
    (p.Subscribe id consumer).map fun o => (o.state, ⟨op, o.result.void, o.consumed⟩)
  | .Unsubscribe id =>
    let o := p.Unsubscribe id
    some (o.state, ⟨op, o.result.void, o.consumed⟩)
  | .Enqueue id value =>
    let o := p.Enqueue id value
    some (o.state, ⟨op, o.result.void, o.consumed⟩)
  | .Dequeue id =>
    let o := p.Dequeue id
    some (o.state, ⟨op, o.result.value, o.consumed⟩)

/-- A finite sequence of calls, one after the other: the processor after the last one and the
history of the calls, in call order.  There is no outcome when one of the calls has none. -/
def run (p : MultiQueueProcessor Key Value Consumer) :
    List (Op Key Value Consumer) →
      Option (MultiQueueProcessor Key Value Consumer × List (Event Key Value Consumer))
  | [] => some (p, [])
  | op :: ops =>
    match p.step op with
    | none => none
    | some (p1, e) =>
      match run p1 ops with
      | none => none
      | some (p2, es) => some (p2, e :: es)

/-- The states that a finite sequence of calls reaches from the empty processor. -/
def Reachable (p : MultiQueueProcessor Key Value Consumer) : Prop :=
  ∃ ops es, run empty ops = some (p, es)

/-- The states that a finite sequence of calls reaches from the empty processor without any call
of the sequence being left by an exception of `Consume`. -/
def ReachableQuiet (p : MultiQueueProcessor Key Value Consumer) : Prop :=
  ∃ ops es, run empty ops = some (p, es) ∧ ∀ e ∈ es, e.result ≠ .propagates

end MultiQueueProcessor

/-- The values passed to the successful `Enqueue(k, _)` calls of a history, in call order. -/
def enqueued {Key Value Consumer : Type} [DecidableEq Key] (k : Key) :
    List (Event Key Value Consumer) → List Value
  | [] => []
  | e :: es =>
    match e.op, e.result with
    | .Enqueue id value, .returns _ => if id = k then value :: enqueued k es else enqueued k es
    | _, _ => enqueued k es

/-- The values returned by the successful `Dequeue(k)` calls of a history, in call order. -/
def dequeued {Key Value Consumer : Type} [DecidableEq Key] (k : Key) :
    List (Event Key Value Consumer) → List Value
  | [] => []
  | e :: es =>
    match e.op, e.result with
    | .Dequeue id, .returns (some value) =>
      if id = k then value :: dequeued k es else dequeued k es
    | _, _ => dequeued k es

/-- The entry, if any, of a key that has no subscriber and the buffer `vs`, in a table without
idle entries. -/
def unsubscribedEntry {Value Consumer : Type} (vs : List Value) :
    Option (SQueue Value Consumer) :=
  if vs.isEmpty then none else some ⟨vs, none⟩

/-- The calls of the example trace of the specification on the key `x`, for the capacity `N`:
`Enqueue(x, 1)`, ..., `Enqueue(x, N)`, then `Enqueue(x, N + 1)`, `Dequeue(x)`,
`Enqueue(x, N + 1)`, then `N` times `Dequeue(x)`, then `Dequeue(x)` once more. -/
def exampleTraceCalls {Key Consumer : Type} (x : Key) (N : Nat) : List (Op Key Nat Consumer) :=
  (List.range' 1 N).map (fun v => .Enqueue x v) ++
    [.Enqueue x (N + 1), .Dequeue x, .Enqueue x (N + 1)] ++
    List.replicate N (.Dequeue x) ++ [.Dequeue x]

/-- How the calls of the example trace end according to the specification, for the capacity `N`:
the first `N` calls return, the next throws `QueueFull`, `Dequeue` returns 1, `Enqueue` returns,
the `N` calls of `Dequeue` return 2, ..., `N + 1`, and the last `Dequeue` throws `UnknownKey`. -/
def exampleTraceResults (N : Nat) : List (Result (Option Nat)) :=
  List.replicate N (.returns none) ++
    [.throws .queueFull, .returns (some 1), .returns none] ++
    (List.range' 2 N).map (fun v => .returns (some v)) ++ [.throws .dequeueUnknownKey]

namespace MultiQueueProcessor

variable {Key Value Consumer : Type}

/-- What holds of an entry in every state that the public operations reach: it is not idle (it
has a buffered value or a subscriber), its buffer is not full while a subscriber is attached, and
its buffer holds at most `MaxCapacity` values. -/
def EntryOk (q : SQueue Value Consumer) : Prop :=
  (q.values_ ≠ [] ∨ q.subscriber_ ≠ none) ∧
  (q.subscriber_ ≠ none → q.values_.length < MaxCapacity) ∧
  q.values_.length ≤ MaxCapacity

/-- Every entry of the table satisfies `EntryOk`. -/
def Invariant (p : MultiQueueProcessor Key Value Consumer) : Prop :=
  ∀ k q, p.queues_ k = some q → EntryOk q

/-- Every entry of the table that has a subscriber has an empty buffer. -/
def Drained (p : MultiQueueProcessor Key Value Consumer) : Prop :=
  ∀ k q, p.queues_ k = some q → q.subscriber_ ≠ none → q.values_ = []

end MultiQueueProcessor

/-! ### Concrete data, on which the properties below are exercised -/

namespace Example

/-- The consumers of the examples are numbers: `Consume(id, value)` of the consumer `c` exits with
an exception exactly when `value` is `c`, and returns for every other value. -/
instance natConsumer : IConsumer Nat Nat Nat :=
  ⟨fun c _ value => decide (value ≠ c)⟩

/-- Calls on two keys: key 0 is only enqueued to and dequeued from, key 1 gets a subscriber. -/
def calls : List (Op Nat Nat Nat) :=
  [.Enqueue 0 1, .Enqueue 0 2, .Enqueue 1 7, .Subscribe 1 (some 5), .Dequeue 0]

/-- The history of `calls` from the empty processor. -/
def history : List (Event Nat Nat Nat) :=
  [⟨.Enqueue 0 1, .returns none, []⟩, ⟨.Enqueue 0 2, .returns none, []⟩,
   ⟨.Enqueue 1 7, .returns none, []⟩, ⟨.Subscribe 1 (some 5), .returns none, [⟨5, 1, 7⟩]⟩,
   ⟨.Dequeue 0, .returns (some 1), []⟩]

/-- Key 0 holds the values 1 and 2 and has no subscriber. -/
def buffered : MultiQueueProcessor Nat Nat Nat :=
  MultiQueueProcessor.empty.store 0 ⟨[1, 2], none⟩

/-- Key 0 has the subscriber 7 (and so an empty buffer). -/
def subscribed : MultiQueueProcessor Nat Nat Nat :=
  MultiQueueProcessor.empty.store 0 ⟨[], some 7⟩

/-- Key 0 holds `MaxCapacity` values and has no subscriber. -/
def full : MultiQueueProcessor Nat Nat Nat :=
  MultiQueueProcessor.empty.store 0 ⟨List.replicate MaxCapacity 0, none⟩

/-- Key 0 holds the value 1 and has no subscriber. -/
def one : MultiQueueProcessor Nat Nat Nat :=
  MultiQueueProcessor.empty.store 0 ⟨[1], none⟩

/-- Key 0 has the subscriber 1 and still holds the value 2: the state after `Enqueue(0, 1)`,
`Enqueue(0, 2)`, `Subscribe(0, 1)`, the consumer 1 throwing on the value 1. -/
def stuck : MultiQueueProcessor Nat Nat Nat :=
  MultiQueueProcessor.empty.store 0 ⟨[2], some 1⟩

end Example

end MQP

/-! ## Auxiliary facts about the embedding -/

namespace MQP

namespace MultiQueueProcessor

variable {Key Value Consumer : Type}

/-- The loop of `Subscribe` with a consumer that returns on every value of the buffer: it empties
the buffer, delivering every value in order. -/
theorem drain_some [IConsumer Key Value Consumer] (id : Key) (c : Consumer) (vs : List Value)
    (hc : ∀ v ∈ vs, IConsumer.Consume c id v = true) :
    drain id (some c) vs = some ([], vs.map fun v => ⟨c, id, v⟩, true) := by
  induction vs with
  | nil => rfl
  | cons v vs ih =>
    have hv : IConsumer.Consume c id v = true := hc v (List.mem_cons_self _ _)
    simp [drain, hv, ih fun w hw => hc w (List.mem_cons_of_mem _ hw)]

/-- The loop of `Subscribe` with a non-null subscriber always has an outcome. When it ran to its
end it left no value and delivered every value in order; when an exception of `Consume` ended it,
the value of that call at least is gone from the buffer. -/
theorem drain_some_total [IConsumer Key Value Consumer] (id : Key) (c : Consumer)
    (vs : List Value) :
    ∃ rest calls completed, drain id (some c) vs = some (rest, calls, completed) ∧
      (completed = true → rest = [] ∧ calls = vs.map fun v => ⟨c, id, v⟩) ∧
      (completed = false → rest.length < vs.length) := by
  induction vs with
  | nil => exact ⟨[], [], true, rfl, fun _ => ⟨rfl, rfl⟩, by simp⟩
  | cons v vs ih =>
    obtain ⟨rest, calls, completed, hd, hdone, hleft⟩ := ih
    by_cases hv : IConsumer.Consume c id v = true
    · refine ⟨rest, ⟨c, id, v⟩ :: calls, completed, by simp [drain, hv, hd], ?_, ?_⟩
      · intro h
        obtain ⟨h1, h2⟩ := hdone h
        exact ⟨h1, by rw [h2]; rfl⟩
      · intro h
        have := hleft h
        simp only [List.length_cons]
        omega
    · exact ⟨vs, [⟨c, id, v⟩], false, by simp [drain, hv], by simp, by simp⟩

theorem store_queues_self [DecidableEq Key] (p : MultiQueueProcessor Key Value Consumer)
    (id : Key) (q : SQueue Value Consumer) : (p.store id q).queues_ id = some q := by
  simp [store]

theorem store_queues_ne [DecidableEq Key] (p : MultiQueueProcessor Key Value Consumer)
    {id j : Key} (q : SQueue Value Consumer) (h : j ≠ id) :
    (p.store id q).queues_ j = p.queues_ j := by
  simp [store, Function.update_noteq h]

theorem erase_queues_self [DecidableEq Key] (p : MultiQueueProcessor Key Value Consumer)
    (id : Key) : (p.erase id).queues_ id = none := by
  simp [erase]

theorem erase_queues_ne [DecidableEq Key] (p : MultiQueueProcessor Key Value Consumer)
    {id j : Key} (h : j ≠ id) : (p.erase id).queues_ j = p.queues_ j := by
  simp [erase, Function.update_noteq h]

theorem erase_store [DecidableEq Key] (p : MultiQueueProcessor Key Value Consumer)
    (id : Key) (q : SQueue Value Consumer) : (p.store id q).erase id = p.erase id := by
  simp [erase, store]

theorem store_store [DecidableEq Key] (p : MultiQueueProcessor Key Value Consumer)
    (id : Key) (q0 q : SQueue Value Consumer) : (p.store id q0).store id q = p.store id q := by
  simp [store]

theorem store_emplace [DecidableEq Key] (p : MultiQueueProcessor Key Value Consumer)
    (id : Key) (q0 q : SQueue Value Consumer) : (p.emplace id q0).store id q = p.store id q := by
  unfold emplace
  split <;> simp [store]

theorem erase_emplace [DecidableEq Key] (p : MultiQueueProcessor Key Value Consumer)
    (id : Key) (q0 : SQueue Value Consumer) : (p.emplace id q0).erase id = p.erase id := by
  unfold emplace
  split <;> simp [erase]

theorem store_same [DecidableEq Key] {p : MultiQueueProcessor Key Value Consumer}
    {id : Key} {q : SQueue Value Consumer} (h : p.queues_ id = some q) : p.store id q = p := by
  apply MultiQueueProcessor.ext
  simp [store, ← h]

theorem erase_absent [DecidableEq Key] {p : MultiQueueProcessor Key Value Consumer}
    {id : Key} (h : p.queues_ id = none) : p.erase id = p := by
  apply MultiQueueProcessor.ext
  simp [erase, ← h]

/-! ### The four operations, case by case -/

theorem Enqueue_absent [DecidableEq Key] [IConsumer Key Value Consumer]
    {p : MultiQueueProcessor Key Value Consumer}
    {id : Key} (value : Value) (hq : p.queues_ id = none) :
    p.Enqueue id value = ⟨p.store id ⟨[value], none⟩, .returns (), []⟩ := by
  simp [Enqueue, AccessQueue, hq, SQueue.IsFull, MaxCapacity, SQueue.Enqueue, UnaccessQueue,
    SQueue.IsEmpty, store_emplace]

theorem Enqueue_full [DecidableEq Key] [IConsumer Key Value Consumer]
    {p : MultiQueueProcessor Key Value Consumer}
    {id : Key} {q : SQueue Value Consumer} (value : Value) (hq : p.queues_ id = some q)
    (hfull : MaxCapacity ≤ q.values_.length) :
    p.Enqueue id value = ⟨p, .throws .queueFull, []⟩ := by
  have hne : q.values_.isEmpty = false := by
    cases hv : q.values_ with
    | nil => simp [hv, MaxCapacity] at hfull
    | cons a l => rfl
  simp [Enqueue, AccessQueue, hq, SQueue.IsFull, hfull, UnaccessQueue, SQueue.IsEmpty, hne,
    store_same hq]

theorem Enqueue_push [DecidableEq Key] [IConsumer Key Value Consumer]
    {p : MultiQueueProcessor Key Value Consumer}
    {id : Key} {q : SQueue Value Consumer} {c : Consumer} (value : Value)
    (hq : p.queues_ id = some q) (hfull : q.values_.length < MaxCapacity)
    (hs : q.subscriber_ = some c) :
    p.Enqueue id value =
      ⟨p, if IConsumer.Consume c id value then .returns () else .propagates,
        [⟨c, id, value⟩]⟩ := by
  simp [Enqueue, AccessQueue, hq, SQueue.IsFull, hfull, UnaccessQueue, SQueue.HasSubscriber, hs,
    store_same hq]

theorem Enqueue_append [DecidableEq Key] [IConsumer Key Value Consumer]
    {p : MultiQueueProcessor Key Value Consumer}
    {id : Key} {q : SQueue Value Consumer} (value : Value)
    (hq : p.queues_ id = some q) (hfull : q.values_.length < MaxCapacity)
    (hs : q.subscriber_ = none) :
    p.Enqueue id value = ⟨p.store id ⟨q.values_ ++ [value], none⟩, .returns (), []⟩ := by
  simp [Enqueue, AccessQueue, hq, SQueue.IsFull, hfull, UnaccessQueue, SQueue.HasSubscriber, hs,
    SQueue.Enqueue, SQueue.IsEmpty]

theorem Dequeue_absent [DecidableEq Key] {p : MultiQueueProcessor Key Value Consumer}
    {id : Key} (hq : p.queues_ id = none) :
    p.Dequeue id = ⟨p, .throws .dequeueUnknownKey, []⟩ := by
  simp [Dequeue, AccessQueue, hq]

theorem Dequeue_subscribed [DecidableEq Key] {p : MultiQueueProcessor Key Value Consumer}
    {id : Key} {q : SQueue Value Consumer} {c : Consumer}
    (hq : p.queues_ id = some q) (hs : q.subscriber_ = some c) :
    p.Dequeue id = ⟨p, .throws .hasSubscriber, []⟩ := by
  simp [Dequeue, AccessQueue, hq, UnaccessQueue, SQueue.HasSubscriber, hs, store_same hq]

theorem Dequeue_empty [DecidableEq Key] {p : MultiQueueProcessor Key Value Consumer}
    {id : Key} {q : SQueue Value Consumer}
    (hq : p.queues_ id = some q) (hs : q.subscriber_ = none) (hv : q.values_ = []) :
    p.Dequeue id = ⟨p.erase id, .throws .queueEmpty, []⟩ := by
  simp [Dequeue, AccessQueue, hq, UnaccessQueue, SQueue.HasSubscriber, hs, SQueue.IsEmpty, hv]

theorem Dequeue_last [DecidableEq Key] {p : MultiQueueProcessor Key Value Consumer}
    {id : Key} {q : SQueue Value Consumer} {front : Value}
    (hq : p.queues_ id = some q) (hs : q.subscriber_ = none) (hv : q.values_ = [front]) :
    p.Dequeue id = ⟨p.erase id, .returns front, []⟩ := by
  simp [Dequeue, AccessQueue, hq, UnaccessQueue, SQueue.HasSubscriber, hs, SQueue.IsEmpty, hv,
    SQueue.Dequeue]

theorem Dequeue_more [DecidableEq Key] {p : MultiQueueProcessor Key Value Consumer}
    {id : Key} {q : SQueue Value Consumer} {front next : Value} {rest : List Value}
    (hq : p.queues_ id = some q) (hs : q.subscriber_ = none)
    (hv : q.values_ = front :: next :: rest) :
    p.Dequeue id = ⟨p.store id ⟨next :: rest, none⟩, .returns front, []⟩ := by
  simp [Dequeue, AccessQueue, hq, UnaccessQueue, SQueue.HasSubscriber, hs, SQueue.IsEmpty, hv,
    SQueue.Dequeue]

theorem Unsubscribe_absent [DecidableEq Key] {p : MultiQueueProcessor Key Value Consumer}
    {id : Key} (hq : p.queues_ id = none) :
    p.Unsubscribe id = ⟨p, .throws .unsubscribeUnknownKey, []⟩ := by
  simp [Unsubscribe, AccessQueue, hq]

theorem Unsubscribe_unsubscribed [DecidableEq Key] {p : MultiQueueProcessor Key Value Consumer}
    {id : Key} {q : SQueue Value Consumer}
    (hq : p.queues_ id = some q) (hs : q.subscriber_ = none) :
    p.Unsubscribe id = ⟨p.UnaccessQueue q id, .throws .noSubscriber, []⟩ := by
  simp [Unsubscribe, AccessQueue, hq, SQueue.HasSubscriber, hs]

theorem Unsubscribe_subscribed [DecidableEq Key] {p : MultiQueueProcessor Key Value Consumer}
    {id : Key} {q : SQueue Value Consumer} {c : Consumer}
    (hq : p.queues_ id = some q) (hs : q.subscriber_ = some c) :
    p.Unsubscribe id = ⟨p.UnaccessQueue ⟨q.values_, none⟩ id, .returns (), []⟩ := by
  simp [Unsubscribe, AccessQueue, hq, SQueue.HasSubscriber, hs, SQueue.Unsubscribe]

theorem UnaccessQueue_idle [DecidableEq Key] (p : MultiQueueProcessor Key Value Consumer)
    (id : Key) : p.UnaccessQueue (⟨[], none⟩ : SQueue Value Consumer) id = p.erase id := by
  simp [UnaccessQueue, SQueue.IsEmpty, SQueue.HasSubscriber]

theorem UnaccessQueue_buffered [DecidableEq Key] (p : MultiQueueProcessor Key Value Consumer)
    (id : Key) {q : SQueue Value Consumer} (h : q.values_ ≠ []) :
    p.UnaccessQueue q id = p.store id q := by
  cases hv : q.values_ with
  | nil => exact absurd hv h
  | cons a l => simp [UnaccessQueue, SQueue.IsEmpty, hv]

theorem UnaccessQueue_subscribed [DecidableEq Key] (p : MultiQueueProcessor Key Value Consumer)
    (id : Key) {q : SQueue Value Consumer} {c : Consumer} (h : q.subscriber_ = some c) :
    p.UnaccessQueue q id = p.store id q := by
  simp [UnaccessQueue, SQueue.HasSubscriber, h]

theorem Subscribe_subscribed [DecidableEq Key] [IConsumer Key Value Consumer]
    {p : MultiQueueProcessor Key Value Consumer}
    {id : Key} {q : SQueue Value Consumer} {c : Consumer} (consumer : Option Consumer)
    (hq : p.queues_ id = some q) (hs : q.subscriber_ = some c) :
    p.Subscribe id consumer = some ⟨p, .throws .alreadySubscribed, []⟩ := by
  simp [Subscribe, AccessQueue, hq, SQueue.HasSubscriber, hs, UnaccessQueue, store_same hq]

/-- The method `Subscribe` with a consumer on a key without subscriber: the consumer is attached,
the loop runs, and the entry is left with what the loop left of the buffer. -/
theorem Subscribe_drain [DecidableEq Key] [IConsumer Key Value Consumer]
    (p : MultiQueueProcessor Key Value Consumer) (id : Key) (c : Consumer)
    (hs : p.subscriber id = none) :
    ∃ rest calls completed,
      (completed = true → rest = [] ∧ calls = (p.buffer id).map fun v => ⟨c, id, v⟩) ∧
      (completed = false → rest.length < (p.buffer id).length) ∧
      p.Subscribe id (some c) =
        some ⟨p.store id ⟨rest, some c⟩, if completed then .returns () else .propagates,
          calls⟩ := by
  obtain ⟨rest, calls, completed, hd, hdone, hleft⟩ := drain_some_total id c (p.buffer id)
  refine ⟨rest, calls, completed, hdone, hleft, ?_⟩
  unfold subscriber at hs
  unfold buffer at hd
  cases hq : p.queues_ id with
  | none =>
    simp only [hq] at hd
    simp [Subscribe, AccessQueue, hq, SQueue.HasSubscriber, SQueue.Subscribe, hd,
      UnaccessQueue, store_emplace]
  | some q =>
    simp only [hq] at hs hd
    simp [Subscribe, AccessQueue, hq, SQueue.HasSubscriber, SQueue.Subscribe, hd,
      UnaccessQueue, hs]

theorem Subscribe_unsubscribed [DecidableEq Key] [IConsumer Key Value Consumer]
    (p : MultiQueueProcessor Key Value Consumer) (id : Key) (c : Consumer)
    (hs : p.subscriber id = none) (hc : ∀ v ∈ p.buffer id, IConsumer.Consume c id v = true) :
    p.Subscribe id (some c) =
      some ⟨p.store id ⟨[], some c⟩, .returns (), (p.buffer id).map fun v => ⟨c, id, v⟩⟩ := by
  unfold subscriber at hs
  have hd := drain_some id c (p.buffer id) hc
  unfold buffer at hd ⊢
  cases hq : p.queues_ id with
  | none =>
    simp only [hq] at hd
    simp [Subscribe, AccessQueue, hq, SQueue.HasSubscriber, SQueue.Subscribe, hd,
      UnaccessQueue, SQueue.IsEmpty, store_emplace]
  | some q =>
    simp only [hq] at hs hd
    simp [Subscribe, AccessQueue, hq, SQueue.HasSubscriber, SQueue.Subscribe, hd,
      UnaccessQueue, SQueue.IsEmpty, hs]

theorem Subscribe_absent [DecidableEq Key] [IConsumer Key Value Consumer]
    {p : MultiQueueProcessor Key Value Consumer} {id : Key} (c : Consumer)
    (hq : p.queues_ id = none) :
    p.Subscribe id (some c) = some ⟨p.store id ⟨[], some c⟩, .returns (), []⟩ := by
  have h := Subscribe_unsubscribed p id c (by simp [subscriber, hq]) (by simp [buffer, hq])
  simpa [buffer, hq] using h

theorem Subscribe_null_empty [DecidableEq Key] [IConsumer Key Value Consumer]
    (p : MultiQueueProcessor Key Value Consumer)
    (id : Key) (hs : p.subscriber id = none) (hb : p.buffer id = []) :
    p.Subscribe id none = some ⟨p.erase id, .returns (), []⟩ := by
  unfold subscriber at hs
  unfold buffer at hb
  cases hq : p.queues_ id with
  | none =>
    simp [Subscribe, AccessQueue, hq, SQueue.HasSubscriber, SQueue.Subscribe, drain,
      UnaccessQueue, SQueue.IsEmpty, erase_emplace]
  | some q =>
    simp only [hq] at hs hb
    simp [Subscribe, AccessQueue, hq, SQueue.HasSubscriber, SQueue.Subscribe, drain,
      UnaccessQueue, SQueue.IsEmpty, hs, hb]

theorem Subscribe_null_buffered [DecidableEq Key] [IConsumer Key Value Consumer]
    (p : MultiQueueProcessor Key Value Consumer)
    (id : Key) (hs : p.subscriber id = none) (hb : p.buffer id ≠ []) :
    p.Subscribe id none = none := by
  unfold subscriber at hs
  unfold buffer at hb
  cases hq : p.queues_ id with
  | none => simp [hq] at hb
  | some q =>
    simp only [hq] at hs hb
    cases hv : q.values_ with
    | nil => exact absurd hv hb
    | cons a l =>
      simp [Subscribe, AccessQueue, hq, SQueue.HasSubscriber, SQueue.Subscribe, drain, hs, hv]

/-! ### The invariant of the reachable states -/

theorem Invariant_empty : Invariant (empty : MultiQueueProcessor Key Value Consumer) := by
  intro k q h
  simp [empty] at h

theorem Invariant_store [DecidableEq Key] {p : MultiQueueProcessor Key Value Consumer}
    (hp : Invariant p) (id : Key) {q : SQueue Value Consumer} (hq : EntryOk q) :
    Invariant (p.store id q) := by
  intro k q1 hk
  by_cases hkid : k = id
  · subst hkid
    rw [store_queues_self] at hk
    cases hk
    exact hq
  · rw [store_queues_ne p q hkid] at hk
    exact hp k q1 hk

theorem Invariant_erase [DecidableEq Key] {p : MultiQueueProcessor Key Value Consumer}
    (hp : Invariant p) (id : Key) : Invariant (p.erase id) := by
  intro k q1 hk
  by_cases hkid : k = id
  · subst hkid
    rw [erase_queues_self] at hk
    cases hk
  · rw [erase_queues_ne p hkid] at hk
    exact hp k q1 hk

theorem Invariant_buffer_le {p : MultiQueueProcessor Key Value Consumer} (hp : Invariant p)
    (id : Key) : (p.buffer id).length ≤ MaxCapacity := by
  unfold buffer
  cases hq : p.queues_ id with
  | none => simp
  | some q => exact (hp id q hq).2.2

theorem Invariant_Enqueue [DecidableEq Key] [IConsumer Key Value Consumer]
    {p : MultiQueueProcessor Key Value Consumer}
    (hp : Invariant p) (id : Key) (value : Value) : Invariant (p.Enqueue id value).state := by
  cases hq : p.queues_ id with
  | none =>
    rw [Enqueue_absent value hq]
    exact Invariant_store hp id (by simp [EntryOk, MaxCapacity])
  | some q =>
    by_cases hfull : MaxCapacity ≤ q.values_.length
    · rw [Enqueue_full value hq hfull]
      exact hp
    · have hlt : q.values_.length < MaxCapacity := Nat.lt_of_not_le hfull
      cases hs : q.subscriber_ with
      | some c =>
        rw [Enqueue_push value hq hlt hs]
        exact hp
      | none =>
        rw [Enqueue_append value hq hlt hs]
        refine Invariant_store hp id ⟨?_, ?_, ?_⟩
        · simp
        · simp
        · simp only [List.length_append, List.length_singleton]
          omega

theorem Invariant_Dequeue [DecidableEq Key] {p : MultiQueueProcessor Key Value Consumer}
    (hp : Invariant p) (id : Key) : Invariant (p.Dequeue id).state := by
  cases hq : p.queues_ id with
  | none =>
    rw [Dequeue_absent hq]
    exact hp
  | some q =>
    obtain ⟨_, _, h3⟩ := hp id q hq
    cases hs : q.subscriber_ with
    | some c =>
      rw [Dequeue_subscribed hq hs]
      exact hp
    | none =>
      match hv : q.values_ with
      | [] =>
        rw [Dequeue_empty hq hs hv]
        exact Invariant_erase hp id
      | [front] =>
        rw [Dequeue_last hq hs hv]
        exact Invariant_erase hp id
      | front :: next :: rest =>
        rw [Dequeue_more hq hs hv]
        refine Invariant_store hp id ⟨?_, ?_, ?_⟩
        · simp
        · simp
        · rw [hv] at h3
          simp only [List.length_cons] at h3 ⊢
          omega

theorem Invariant_UnaccessQueue [DecidableEq Key] {p : MultiQueueProcessor Key Value Consumer}
    (hp : Invariant p) (id : Key) {q : SQueue Value Consumer}
    (h2 : q.subscriber_ ≠ none → q.values_.length < MaxCapacity)
    (h3 : q.values_.length ≤ MaxCapacity) :
    Invariant (p.UnaccessQueue q id) := by
  unfold UnaccessQueue
  split
  · exact Invariant_erase hp id
  · rename_i hidle
    refine Invariant_store hp id ⟨?_, h2, h3⟩
    cases hv : q.values_ with
    | nil =>
      cases hs : q.subscriber_ with
      | none => simp [SQueue.IsEmpty, SQueue.HasSubscriber, hv, hs] at hidle
      | some c => simp
    | cons a l => simp

theorem Invariant_Unsubscribe [DecidableEq Key] {p : MultiQueueProcessor Key Value Consumer}
    (hp : Invariant p) (id : Key) : Invariant (p.Unsubscribe id).state := by
  cases hq : p.queues_ id with
  | none =>
    rw [Unsubscribe_absent hq]
    exact hp
  | some q =>
    obtain ⟨_, h2, h3⟩ := hp id q hq
    cases hs : q.subscriber_ with
    | none =>
      rw [Unsubscribe_unsubscribed hq hs]
      exact Invariant_UnaccessQueue hp id h2 h3
    | some c =>
      rw [Unsubscribe_subscribed hq hs]
      exact Invariant_UnaccessQueue hp id (by simp) h3

theorem Invariant_Subscribe [DecidableEq Key] [IConsumer Key Value Consumer]
    {p : MultiQueueProcessor Key Value Consumer}
    (hp : Invariant p) (id : Key) (consumer : Option Consumer)
    {o : Outcome Key Value Consumer Unit} (ho : p.Subscribe id consumer = some o) :
    Invariant o.state := by
  cases hsub : p.subscriber id with
  | some c0 =>
    unfold subscriber at hsub
    cases hq : p.queues_ id with
    | none => simp [hq] at hsub
    | some q =>
      simp only [hq] at hsub
      rw [Subscribe_subscribed consumer hq hsub] at ho
      cases ho
      exact hp
  | none =>
    cases consumer with
    | some c =>
      obtain ⟨rest, calls, completed, hdone, hleft, hs⟩ := Subscribe_drain p id c hsub
      rw [hs] at ho
      cases ho
      have hb := Invariant_buffer_le hp id
      have hlt : rest.length < MaxCapacity := by
        cases completed with
        | true => simp [(hdone rfl).1, MaxCapacity]
        | false => exact Nat.lt_of_lt_of_le (hleft rfl) hb
      exact Invariant_store hp id ⟨by simp, fun _ => hlt, Nat.le_of_lt hlt⟩
    | none =>
      by_cases hb : p.buffer id = []
      · rw [Subscribe_null_empty p id hsub hb] at ho
        cases ho
        exact Invariant_erase hp id
      · rw [Subscribe_null_buffered p id hsub hb] at ho
        cases ho

theorem Invariant_step [DecidableEq Key] [IConsumer Key Value Consumer]
    {p p1 : MultiQueueProcessor Key Value Consumer}
    (hp : Invariant p) {op : Op Key Value Consumer} {e : Event Key Value Consumer}
    (h : p.step op = some (p1, e)) : Invariant p1 := by
  cases op with
  | Subscribe id consumer =>
    simp only [step, Option.map_eq_some'] at h
    obtain ⟨o, ho, h1⟩ := h
    cases h1
    exact Invariant_Subscribe hp id consumer ho
  | Unsubscribe id =>
    simp only [step, Option.some.injEq, Prod.mk.injEq] at h
    rw [← h.1]
    exact Invariant_Unsubscribe hp id
  | Enqueue id value =>
    simp only [step, Option.some.injEq, Prod.mk.injEq] at h
    rw [← h.1]
    exact Invariant_Enqueue hp id value
  | Dequeue id =>
    simp only [step, Option.some.injEq, Prod.mk.injEq] at h
    rw [← h.1]
    exact Invariant_Dequeue hp id

/-- Unfolding of `run` on a call followed by more calls. -/
theorem run_cons_eq_some [DecidableEq Key] [IConsumer Key Value Consumer]
    {p p2 : MultiQueueProcessor Key Value Consumer}
    {op : Op Key Value Consumer} {ops : List (Op Key Value Consumer)}
    {es : List (Event Key Value Consumer)} (h : p.run (op :: ops) = some (p2, es)) :
    ∃ p1 e es1, p.step op = some (p1, e) ∧ p1.run ops = some (p2, es1) ∧ es = e :: es1 := by
  unfold run at h
  split at h
  · cases h
  · rename_i p1 e hstep
    split at h
    · cases h
    · rename_i p2a es1 hrun
      cases h
      exact ⟨p1, e, es1, hstep, hrun, rfl⟩

theorem Invariant_run [DecidableEq Key] [IConsumer Key Value Consumer]
    {p p2 : MultiQueueProcessor Key Value Consumer}
    (hp : Invariant p) {ops : List (Op Key Value Consumer)}
    {es : List (Event Key Value Consumer)} (h : p.run ops = some (p2, es)) : Invariant p2 := by
  induction ops generalizing p es with
  | nil =>
    simp only [run, Option.some.injEq, Prod.mk.injEq] at h
    rw [← h.1]
    exact hp
  | cons op ops ih =>
    obtain ⟨p1, e, es1, hstep, hrun, _⟩ := run_cons_eq_some h
    exact ih (Invariant_step hp hstep) hrun

theorem Invariant_of_Reachable [DecidableEq Key] [IConsumer Key Value Consumer]
    {p : MultiQueueProcessor Key Value Consumer}
    (h : Reachable p) : Invariant p := by
  obtain ⟨ops, es, hrun⟩ := h
  exact Invariant_run Invariant_empty hrun

/-! ### While no `Consume` call throws, a subscribed entry has an empty buffer -/

theorem Drained_empty : Drained (empty : MultiQueueProcessor Key Value Consumer) := by
  intro k q h
  simp [empty] at h

theorem Drained_store [DecidableEq Key] {p : MultiQueueProcessor Key Value Consumer}
    (hp : Drained p) (id : Key) {q : SQueue Value Consumer}
    (hq : q.subscriber_ ≠ none → q.values_ = []) : Drained (p.store id q) := by
  intro k q1 hk
  by_cases hkid : k = id
  · subst hkid
    rw [store_queues_self] at hk
    cases hk
    exact hq
  · rw [store_queues_ne p q hkid] at hk
    exact hp k q1 hk

theorem Drained_erase [DecidableEq Key] {p : MultiQueueProcessor Key Value Consumer}
    (hp : Drained p) (id : Key) : Drained (p.erase id) := by
  intro k q1 hk
  by_cases hkid : k = id
  · subst hkid
    rw [erase_queues_self] at hk
    cases hk
  · rw [erase_queues_ne p hkid] at hk
    exact hp k q1 hk

theorem Drained_UnaccessQueue [DecidableEq Key] {p : MultiQueueProcessor Key Value Consumer}
    (hp : Drained p) (id : Key) {q : SQueue Value Consumer}
    (hq : q.subscriber_ ≠ none → q.values_ = []) : Drained (p.UnaccessQueue q id) := by
  unfold UnaccessQueue
  split
  · exact Drained_erase hp id
  · exact Drained_store hp id hq

theorem Drained_Enqueue [DecidableEq Key] [IConsumer Key Value Consumer]
    {p : MultiQueueProcessor Key Value Consumer}
    (hp : Drained p) (id : Key) (value : Value) : Drained (p.Enqueue id value).state := by
  cases hq : p.queues_ id with
  | none =>
    rw [Enqueue_absent value hq]
    exact Drained_store hp id (by simp)
  | some q =>
    by_cases hfull : MaxCapacity ≤ q.values_.length
    · rw [Enqueue_full value hq hfull]
      exact hp
    · have hlt : q.values_.length < MaxCapacity := Nat.lt_of_not_le hfull
      cases hs : q.subscriber_ with
      | some c =>
        rw [Enqueue_push value hq hlt hs]
        exact hp
      | none =>
        rw [Enqueue_append value hq hlt hs]
        exact Drained_store hp id (by simp)

theorem Drained_Dequeue [DecidableEq Key] {p : MultiQueueProcessor Key Value Consumer}
    (hp : Drained p) (id : Key) : Drained (p.Dequeue id).state := by
  cases hq : p.queues_ id with
  | none =>
    rw [Dequeue_absent hq]
    exact hp
  | some q =>
    cases hs : q.subscriber_ with
    | some c =>
      rw [Dequeue_subscribed hq hs]
      exact hp
    | none =>
      match hv : q.values_ with
      | [] =>
        rw [Dequeue_empty hq hs hv]
        exact Drained_erase hp id
      | [front] =>
        rw [Dequeue_last hq hs hv]
        exact Drained_erase hp id
      | front :: next :: rest =>
        rw [Dequeue_more hq hs hv]
        exact Drained_store hp id (by simp)

theorem Drained_Unsubscribe [DecidableEq Key] {p : MultiQueueProcessor Key Value Consumer}
    (hp : Drained p) (id : Key) : Drained (p.Unsubscribe id).state := by
  cases hq : p.queues_ id with
  | none =>
    rw [Unsubscribe_absent hq]
    exact hp
  | some q =>
    cases hs : q.subscriber_ with
    | none =>
      rw [Unsubscribe_unsubscribed hq hs]
      exact Drained_UnaccessQueue hp id (hp id q hq)
    | some c =>
      rw [Unsubscribe_subscribed hq hs]
      exact Drained_UnaccessQueue hp id (by simp)

theorem Drained_Subscribe [DecidableEq Key] [IConsumer Key Value Consumer]
    {p : MultiQueueProcessor Key Value Consumer}
    (hp : Drained p) (id : Key) (consumer : Option Consumer)
    {o : Outcome Key Value Consumer Unit} (ho : p.Subscribe id consumer = some o)
    (hres : o.result ≠ .propagates) : Drained o.state := by
  cases hsub : p.subscriber id with
  | some c0 =>
    unfold subscriber at hsub
    cases hq : p.queues_ id with
    | none => simp [hq] at hsub
    | some q =>
      simp only [hq] at hsub
      rw [Subscribe_subscribed consumer hq hsub] at ho
      cases ho
      exact hp
  | none =>
    cases consumer with
    | some c =>
      obtain ⟨rest, calls, completed, hdone, _, hs⟩ := Subscribe_drain p id c hsub
      rw [hs] at ho
      cases ho
      cases completed with
      | false => simp at hres
      | true => exact Drained_store hp id (fun _ => (hdone rfl).1)
    | none =>
      by_cases hb : p.buffer id = []
      · rw [Subscribe_null_empty p id hsub hb] at ho
        cases ho
        exact Drained_erase hp id
      · rw [Subscribe_null_buffered p id hsub hb] at ho
        cases ho

theorem Drained_step [DecidableEq Key] [IConsumer Key Value Consumer]
    {p p1 : MultiQueueProcessor Key Value Consumer}
    (hp : Drained p) {op : Op Key Value Consumer} {e : Event Key Value Consumer}
    (h : p.step op = some (p1, e)) (hres : e.result ≠ .propagates) : Drained p1 := by
  cases op with
  | Subscribe id consumer =>
    simp only [step, Option.map_eq_some'] at h
    obtain ⟨o, ho, h1⟩ := h
    cases h1
    refine Drained_Subscribe hp id consumer ho ?_
    intro hprop
    simp [hprop, Result.void] at hres
  | Unsubscribe id =>
    simp only [step, Option.some.injEq, Prod.mk.injEq] at h
    rw [← h.1]
    exact Drained_Unsubscribe hp id
  | Enqueue id value =>
    simp only [step, Option.some.injEq, Prod.mk.injEq] at h
    rw [← h.1]
    exact Drained_Enqueue hp id value
  | Dequeue id =>
    simp only [step, Option.some.injEq, Prod.mk.injEq] at h
    rw [← h.1]
    exact Drained_Dequeue hp id

theorem Drained_run [DecidableEq Key] [IConsumer Key Value Consumer]
    {p p2 : MultiQueueProcessor Key Value Consumer}
    (hp : Drained p) {ops : List (Op Key Value Consumer)}
    {es : List (Event Key Value Consumer)} (h : p.run ops = some (p2, es))
    (hes : ∀ e ∈ es, e.result ≠ .propagates) : Drained p2 := by
  induction ops generalizing p es with
  | nil =>
    simp only [run, Option.some.injEq, Prod.mk.injEq] at h
    rw [← h.1]
    exact hp
  | cons op ops ih =>
    obtain ⟨p1, e, es1, hstep, hrun, heq⟩ := run_cons_eq_some h
    subst heq
    exact ih (Drained_step hp hstep (hes e (List.mem_cons_self _ _))) hrun
      (fun e1 h1 => hes e1 (List.mem_cons_of_mem _ h1))

theorem Drained_of_ReachableQuiet [DecidableEq Key] [IConsumer Key Value Consumer]
    {p : MultiQueueProcessor Key Value Consumer} (h : ReachableQuiet p) : Drained p := by
  obtain ⟨ops, es, hrun, hes⟩ := h
  exact Drained_run Drained_empty hrun hes

theorem Reachable_of_ReachableQuiet [DecidableEq Key] [IConsumer Key Value Consumer]
    {p : MultiQueueProcessor Key Value Consumer} (h : ReachableQuiet p) : Reachable p := by
  obtain ⟨ops, es, hrun, _⟩ := h
  exact ⟨ops, es, hrun⟩

/-! ### Other keys are not touched -/

theorem emplace_queues_ne [DecidableEq Key] (p : MultiQueueProcessor Key Value Consumer)
    {id j : Key} (q : SQueue Value Consumer) (h : j ≠ id) :
    (p.emplace id q).queues_ j = p.queues_ j := by
  unfold emplace
  split
  · simp [Function.update_noteq h]
  · rfl

theorem UnaccessQueue_queues_ne [DecidableEq Key] (p : MultiQueueProcessor Key Value Consumer)
    {id j : Key} (q : SQueue Value Consumer) (h : j ≠ id) :
    (p.UnaccessQueue q id).queues_ j = p.queues_ j := by
  unfold UnaccessQueue
  split
  · exact erase_queues_ne p h
  · exact store_queues_ne p q h

theorem AccessQueue_queues_ne [DecidableEq Key] (p : MultiQueueProcessor Key Value Consumer)
    {id j : Key} (bCreate : Bool) (h : j ≠ id) :
    (p.AccessQueue id bCreate).1.queues_ j = p.queues_ j := by
  unfold AccessQueue
  split
  · split
    · exact emplace_queues_ne p _ h
    · rfl
  · rfl

theorem Enqueue_queues_ne [DecidableEq Key] [IConsumer Key Value Consumer]
    (p : MultiQueueProcessor Key Value Consumer)
    {id j : Key} (value : Value) (h : j ≠ id) :
    (p.Enqueue id value).state.queues_ j = p.queues_ j := by
  have ha := AccessQueue_queues_ne p true h
  unfold Enqueue
  split
  · rename_i p1 hacc
    rw [hacc] at ha
    exact ha
  · rename_i p1 pQueue hacc
    rw [hacc] at ha
    split
    · simp only [UnaccessQueue_queues_ne _ _ h]
      exact ha
    · split <;> simp only [UnaccessQueue_queues_ne _ _ h] <;> exact ha

theorem Dequeue_queues_ne [DecidableEq Key] (p : MultiQueueProcessor Key Value Consumer)
    {id j : Key} (h : j ≠ id) :
    (p.Dequeue id).state.queues_ j = p.queues_ j := by
  have ha := AccessQueue_queues_ne p false h
  unfold Dequeue
  split
  · rename_i p1 hacc
    rw [hacc] at ha
    exact ha
  · rename_i p1 pQueue hacc
    rw [hacc] at ha
    split
    · simp only [UnaccessQueue_queues_ne _ _ h]
      exact ha
    · split <;> simp only [UnaccessQueue_queues_ne _ _ h] <;> exact ha

theorem Unsubscribe_queues_ne [DecidableEq Key] (p : MultiQueueProcessor Key Value Consumer)
    {id j : Key} (h : j ≠ id) :
    (p.Unsubscribe id).state.queues_ j = p.queues_ j := by
  have ha := AccessQueue_queues_ne p false h
  unfold Unsubscribe
  split
  · rename_i p1 hacc
    rw [hacc] at ha
    exact ha
  · rename_i p1 pQueue hacc
    rw [hacc] at ha
    split <;> simp only [UnaccessQueue_queues_ne _ _ h] <;> exact ha

theorem Subscribe_queues_ne [DecidableEq Key] [IConsumer Key Value Consumer]
    (p : MultiQueueProcessor Key Value Consumer)
    {id j : Key} (consumer : Option Consumer) (h : j ≠ id)
    {o : Outcome Key Value Consumer Unit} (ho : p.Subscribe id consumer = some o) :
    o.state.queues_ j = p.queues_ j := by
  have ha := AccessQueue_queues_ne p true h
  unfold Subscribe at ho
  split at ho
  · rename_i p1 hacc
    rw [hacc] at ha
    cases ho
    exact ha
  · rename_i p1 pQueue hacc
    rw [hacc] at ha
    split at ho
    · cases ho
      simp only [UnaccessQueue_queues_ne _ _ h]
      exact ha
    · simp only at ho
      split at ho
      · cases ho
      · cases ho
        simp only [UnaccessQueue_queues_ne _ _ h]
        exact ha

theorem buffer_congr {p p1 : MultiQueueProcessor Key Value Consumer} {k : Key}
    (h : p1.queues_ k = p.queues_ k) : p1.buffer k = p.buffer k := by
  simp [buffer, h]

theorem subscriber_congr {p p1 : MultiQueueProcessor Key Value Consumer} {k : Key}
    (h : p1.queues_ k = p.queues_ k) : p1.subscriber k = p.subscriber k := by
  simp [subscriber, h]

/-! ### Histories of one key that has no subscriber -/

theorem enqueued_cons_throws [DecidableEq Key] (k : Key) (op : Op Key Value Consumer)
    (t : Thrown) (cs : List (ConsumeCall Key Value Consumer))
    (es : List (Event Key Value Consumer)) :
    enqueued k (⟨op, .throws t, cs⟩ :: es) = enqueued k es := by
  cases op <;> rfl

theorem dequeued_cons_throws [DecidableEq Key] (k : Key) (op : Op Key Value Consumer)
    (t : Thrown) (cs : List (ConsumeCall Key Value Consumer))
    (es : List (Event Key Value Consumer)) :
    dequeued k (⟨op, .throws t, cs⟩ :: es) = dequeued k es := by
  cases op <;> rfl

theorem enqueued_cons_of_ne [DecidableEq Key] {k id : Key} (h : id ≠ k) (value : Value)
    (r : Result (Option Value)) (cs : List (ConsumeCall Key Value Consumer))
    (es : List (Event Key Value Consumer)) :
    enqueued k (⟨.Enqueue id value, r, cs⟩ :: es) = enqueued k es := by
  cases r <;> simp [enqueued, h]

theorem dequeued_cons_of_ne [DecidableEq Key] {k id : Key} (h : id ≠ k)
    (r : Result (Option Value)) (cs : List (ConsumeCall Key Value Consumer))
    (es : List (Event Key Value Consumer)) :
    dequeued k (⟨.Dequeue id, r, cs⟩ :: es) = dequeued k es := by
  rcases r with (_ | v) | t <;> simp [dequeued, h]

/-- One call that is not a `Subscribe` on `k`, made while `k` has no subscriber: `k` still has
no subscriber, and the buffer of `k` before the call followed by the value the call enqueued is
the value the call dequeued followed by the buffer after it. -/
theorem step_fifo [DecidableEq Key] [IConsumer Key Value Consumer]
    {p p1 : MultiQueueProcessor Key Value Consumer} {k : Key}
    {op : Op Key Value Consumer} {e : Event Key Value Consumer}
    (hs : p.subscriber k = none) (hk : ∀ consumer, op ≠ .Subscribe k consumer)
    (hstep : p.step op = some (p1, e)) :
    p1.subscriber k = none ∧
      ∀ (es : List (Event Key Value Consumer)) (tl : List Value),
        p1.buffer k ++ enqueued k es = dequeued k es ++ tl →
        p.buffer k ++ enqueued k (e :: es) = dequeued k (e :: es) ++ tl := by
  cases op with
  | Subscribe id consumer =>
    have hne : k ≠ id := fun h => hk consumer (by rw [h])
    simp only [step, Option.map_eq_some'] at hstep
    obtain ⟨o, ho, h1⟩ := hstep
    cases h1
    have hfr := Subscribe_queues_ne p consumer hne ho
    refine ⟨by rw [subscriber_congr hfr]; exact hs, ?_⟩
    intro es tl h
    rw [buffer_congr hfr] at h
    simpa [enqueued, dequeued] using h
  | Unsubscribe id =>
    simp only [step, Option.some.injEq, Prod.mk.injEq] at hstep
    obtain ⟨h1, h2⟩ := hstep
    subst h1 h2
    have hq : (p.Unsubscribe id).state.subscriber k = none ∧
        (p.Unsubscribe id).state.buffer k = p.buffer k := by
      by_cases hne : k = id
      · subst hne
        unfold subscriber at hs
        cases hq : p.queues_ k with
        | none => simp [Unsubscribe_absent hq, subscriber, buffer, hq]
        | some q =>
          simp only [hq] at hs
          rw [Unsubscribe_unsubscribed hq hs]
          cases hv : q.values_ with
          | nil =>
            have hq0 : q = ⟨[], none⟩ := by
              cases q
              simp_all
            subst hq0
            simp [UnaccessQueue_idle, subscriber, buffer, erase_queues_self, hq]
          | cons a l =>
            rw [UnaccessQueue_buffered p k (by simp [hv]), store_same hq]
            simp [subscriber, buffer, hq, hs]
      · have hfr : (p.Unsubscribe id).state.queues_ k = p.queues_ k :=
          Unsubscribe_queues_ne p hne
        exact ⟨by rw [subscriber_congr hfr]; exact hs, buffer_congr hfr⟩
    refine ⟨hq.1, ?_⟩
    intro es tl h
    rw [hq.2] at h
    simpa [enqueued, dequeued] using h
  | Enqueue id value =>
    simp only [step, Option.some.injEq, Prod.mk.injEq] at hstep
    obtain ⟨h1, h2⟩ := hstep
    subst h1 h2
    by_cases hne : k = id
    · subst hne
      unfold subscriber at hs
      cases hq : p.queues_ k with
      | none =>
        rw [Enqueue_absent value hq]
        refine ⟨by simp [subscriber, store_queues_self], ?_⟩
        intro es tl h
        simp only [buffer, store_queues_self, hq] at h ⊢
        simpa [enqueued, dequeued, Result.void] using h
      | some q =>
        simp only [hq] at hs
        by_cases hfull : MaxCapacity ≤ q.values_.length
        · rw [Enqueue_full value hq hfull]
          refine ⟨by simp [subscriber, hq, hs], ?_⟩
          intro es tl h
          simpa [Result.void, enqueued_cons_throws, dequeued_cons_throws] using h
        · rw [Enqueue_append value hq (Nat.lt_of_not_le hfull) hs]
          refine ⟨by simp [subscriber, store_queues_self], ?_⟩
          intro es tl h
          simp only [buffer, store_queues_self, hq] at h ⊢
          simpa [enqueued, dequeued, Result.void] using h
    · have hfr : (p.Enqueue id value).state.queues_ k = p.queues_ k :=
        Enqueue_queues_ne p value hne
      refine ⟨by rw [subscriber_congr hfr]; exact hs, ?_⟩
      intro es tl h
      rw [buffer_congr hfr] at h
      rw [enqueued_cons_of_ne (Ne.symm hne)]
      simpa [dequeued] using h
  | Dequeue id =>
    simp only [step, Option.some.injEq, Prod.mk.injEq] at hstep
    obtain ⟨h1, h2⟩ := hstep
    subst h1 h2
    by_cases hne : k = id
    · subst hne
      unfold subscriber at hs
      cases hq : p.queues_ k with
      | none =>
        rw [Dequeue_absent hq]
        refine ⟨by simp [subscriber, hq], ?_⟩
        intro es tl h
        simpa [Result.value, enqueued_cons_throws, dequeued_cons_throws] using h
      | some q =>
        simp only [hq] at hs
        match hv : q.values_ with
        | [] =>
          rw [Dequeue_empty hq hs hv]
          refine ⟨by simp [subscriber, erase_queues_self], ?_⟩
          intro es tl h
          simp only [buffer, erase_queues_self, hq, hv] at h ⊢
          simpa [Result.value, enqueued_cons_throws, dequeued_cons_throws] using h
        | [front] =>
          rw [Dequeue_last hq hs hv]
          refine ⟨by simp [subscriber, erase_queues_self], ?_⟩
          intro es tl h
          simp only [buffer, erase_queues_self, hq, hv] at h ⊢
          simpa [enqueued, dequeued, Result.value] using h
        | front :: next :: rest =>
          rw [Dequeue_more hq hs hv]
          refine ⟨by simp [subscriber, store_queues_self], ?_⟩
          intro es tl h
          simp only [buffer, store_queues_self, hq, hv] at h ⊢
          simpa [enqueued, dequeued, Result.value] using h
    · have hfr : (p.Dequeue id).state.queues_ k = p.queues_ k :=
        Dequeue_queues_ne p hne
      refine ⟨by rw [subscriber_congr hfr]; exact hs, ?_⟩
      intro es tl h
      rw [buffer_congr hfr] at h
      rw [dequeued_cons_of_ne (Ne.symm hne)]
      simpa [enqueued] using h

/-- A sequence of calls without a `Subscribe` on `k`, from a state in which `k` has no
subscriber: the buffer of `k` at the start followed by the values enqueued under `k` is the values
dequeued from `k` followed by the buffer of `k` at the end. -/
theorem run_fifo [DecidableEq Key] [IConsumer Key Value Consumer]
    {k : Key} {ops : List (Op Key Value Consumer)}
    {p p2 : MultiQueueProcessor Key Value Consumer} {es : List (Event Key Value Consumer)}
    (hs : p.subscriber k = none) (hk : ∀ consumer, Op.Subscribe k consumer ∉ ops)
    (hrun : p.run ops = some (p2, es)) :
    p2.subscriber k = none ∧ p.buffer k ++ enqueued k es = dequeued k es ++ p2.buffer k := by
  induction ops generalizing p es with
  | nil =>
    simp only [run, Option.some.injEq, Prod.mk.injEq] at hrun
    obtain ⟨h1, h2⟩ := hrun
    subst h1 h2
    exact ⟨hs, by simp [enqueued, dequeued]⟩
  | cons op ops ih =>
    obtain ⟨p1, e, es1, hstep, hrun1, hes⟩ := run_cons_eq_some hrun
    subst hes
    have hop : ∀ consumer, op ≠ .Subscribe k consumer := by
      intro consumer h
      exact hk consumer (by simp [h])
    obtain ⟨hs1, hstep1⟩ := step_fifo hs hop hstep
    obtain ⟨hs2, hb⟩ := ih hs1 (fun consumer h => hk consumer (List.mem_cons_of_mem _ h)) hrun1
    exact ⟨hs2, hstep1 es1 _ hb⟩

/-! ### Reaching states -/

theorem Reachable_empty [DecidableEq Key] [IConsumer Key Value Consumer] :
    Reachable (empty : MultiQueueProcessor Key Value Consumer) :=
  ⟨[], [], rfl⟩

theorem run_concat [DecidableEq Key] [IConsumer Key Value Consumer]
    {p p1 p2 : MultiQueueProcessor Key Value Consumer}
    {ops : List (Op Key Value Consumer)} {es : List (Event Key Value Consumer)}
    {op : Op Key Value Consumer} {e : Event Key Value Consumer}
    (hrun : p.run ops = some (p1, es)) (hstep : p1.step op = some (p2, e)) :
    p.run (ops ++ [op]) = some (p2, es ++ [e]) := by
  induction ops generalizing p es with
  | nil =>
    simp only [run, Option.some.injEq, Prod.mk.injEq] at hrun
    obtain ⟨h1, h2⟩ := hrun
    subst h1 h2
    simp [run, hstep]
  | cons op0 ops ih =>
    obtain ⟨pa, ea, esa, hstepa, hruna, hes⟩ := run_cons_eq_some hrun
    subst hes
    simp [run, hstepa, ih hruna]

theorem Reachable_step [DecidableEq Key] [IConsumer Key Value Consumer]
    {p p1 : MultiQueueProcessor Key Value Consumer}
    (op : Op Key Value Consumer) {e : Event Key Value Consumer}
    (hp : Reachable p) (hstep : p.step op = some (p1, e)) : Reachable p1 := by
  obtain ⟨ops, es, hrun⟩ := hp
  exact ⟨ops ++ [op], es ++ [e], run_concat hrun hstep⟩

theorem Reachable_Subscribe [DecidableEq Key] [IConsumer Key Value Consumer]
    {p : MultiQueueProcessor Key Value Consumer}
    (hp : Reachable p) {id : Key} {consumer : Option Consumer}
    {o : Outcome Key Value Consumer Unit} (ho : p.Subscribe id consumer = some o) :
    Reachable o.state :=
  Reachable_step (.Subscribe id consumer)
    (e := ⟨.Subscribe id consumer, o.result.void, o.consumed⟩) hp (by simp [step, ho])

theorem Reachable_Unsubscribe [DecidableEq Key] [IConsumer Key Value Consumer]
    {p : MultiQueueProcessor Key Value Consumer}
    (hp : Reachable p) (id : Key) : Reachable (p.Unsubscribe id).state :=
  Reachable_step (.Unsubscribe id) hp rfl

theorem Reachable_Enqueue [DecidableEq Key] [IConsumer Key Value Consumer]
    {p : MultiQueueProcessor Key Value Consumer}
    (hp : Reachable p) (id : Key) (value : Value) : Reachable (p.Enqueue id value).state :=
  Reachable_step (.Enqueue id value) hp rfl

theorem Reachable_Dequeue [DecidableEq Key] [IConsumer Key Value Consumer]
    {p : MultiQueueProcessor Key Value Consumer}
    (hp : Reachable p) (id : Key) : Reachable (p.Dequeue id).state :=
  Reachable_step (.Dequeue id) hp rfl

theorem ReachableQuiet_empty [DecidableEq Key] [IConsumer Key Value Consumer] :
    ReachableQuiet (empty : MultiQueueProcessor Key Value Consumer) :=
  ⟨[], [], rfl, by simp⟩

theorem ReachableQuiet_step [DecidableEq Key] [IConsumer Key Value Consumer]
    {p p1 : MultiQueueProcessor Key Value Consumer}
    (op : Op Key Value Consumer) {e : Event Key Value Consumer}
    (hp : ReachableQuiet p) (hstep : p.step op = some (p1, e))
    (hres : e.result ≠ .propagates) : ReachableQuiet p1 := by
  obtain ⟨ops, es, hrun, hes⟩ := hp
  refine ⟨ops ++ [op], es ++ [e], run_concat hrun hstep, ?_⟩
  intro e1 h1
  rcases List.mem_append.1 h1 with h | h
  · exact hes e1 h
  · rw [List.mem_singleton.1 h]
    exact hres

/-- The state of the examples in which key 0 has the subscriber 7 is reached by
`Subscribe(0, 7)`, which makes no `Consume` call. -/
theorem ReachableQuiet_subscribed : ReachableQuiet Example.subscribed :=
  ReachableQuiet_step (.Subscribe 0 (some 7))
    (e := ⟨.Subscribe 0 (some 7), .returns none, []⟩) ReachableQuiet_empty
    (by simp [step, Subscribe_absent (p := empty) 7 rfl, Result.void, Example.subscribed])
    (by decide)

/-- From the buffer `[1, 2]` under key 0, `Subscribe(0, 1)` is left by the exception that the
consumer 1 throws on the value 1: the subscriber 1 stays attached and the value 2 stays in the
buffer. -/
theorem Subscribe_buffered_throws :
    Example.buffered.Subscribe 0 (some 1) = some ⟨Example.stuck, .propagates, [⟨1, 0, 1⟩]⟩ := by
  have hq : Example.buffered.queues_ 0 = some ⟨[1, 2], none⟩ := rfl
  have hst : Example.buffered.store 0 ⟨[2], some 1⟩ = Example.stuck := store_store _ _ _ _
  simp [Subscribe, AccessQueue, hq, SQueue.HasSubscriber, SQueue.Subscribe, drain,
    IConsumer.Consume, UnaccessQueue, SQueue.IsEmpty, hst]

theorem Reachable_buffered : Reachable Example.buffered := by
  have h1 : Reachable ((empty : MultiQueueProcessor Nat Nat Nat).Enqueue 0 1).state :=
    Reachable_Enqueue Reachable_empty 0 1
  rw [Enqueue_absent 1 rfl] at h1
  have h2 := Reachable_Enqueue h1 0 2
  rw [Enqueue_append (q := ⟨[1], none⟩) 2 (store_queues_self _ _ _) (by decide) rfl,
    store_store] at h2
  exact h2

/-- The state of the examples in which key 0 has the subscriber 1 and the buffer `[2]` is reached
by `Enqueue(0, 1)`, `Enqueue(0, 2)`, `Subscribe(0, 1)`. -/
theorem Reachable_stuck : Reachable Example.stuck :=
  Reachable_Subscribe Reachable_buffered Subscribe_buffered_throws

end MultiQueueProcessor

/-! ## The claims of the specification -/

open MultiQueueProcessor

variable {Key Value Consumer : Type}

/-- C1 (FIFO for unsubscribed keys). Take any finite sequence of calls from the empty processor
that has an outcome and contains no `Subscribe` on the key `k` (calls on other keys and `Enqueue`,
`Dequeue`, `Unsubscribe` on `k` are arbitrary). The values returned by the successful
`Dequeue(k)` calls, in call order, are a prefix of the values passed to the successful
`Enqueue(k, _)` calls, in call order. -/
theorem C1_fifo_unsubscribed [DecidableEq Key] [IConsumer Key Value Consumer]
    (k : Key) (ops : List (Op Key Value Consumer))
    (es : List (Event Key Value Consumer))
    (hk : ∀ consumer, Op.Subscribe k consumer ∉ ops)
    (hrun : (run empty ops).map Prod.snd = some es) :
    dequeued k es <+: enqueued k es := by
  simp only [Option.map_eq_some', Prod.exists, exists_eq_right] at hrun
  obtain ⟨p, hrun⟩ := hrun
  obtain ⟨_, h⟩ := run_fifo (k := k) (p := empty) rfl hk hrun
  refine ⟨p.buffer k, ?_⟩
  rw [← h]
  simp [buffer, empty]

/-- Witness of C1: two values are enqueued under key 0, key 1 is used and subscribed in between,
and one value is dequeued from key 0. -/
theorem C1_fifo_unsubscribed_witness :
    (∀ consumer, Op.Subscribe 0 consumer ∉ Example.calls) ∧
      (run empty Example.calls).map Prod.snd = some Example.history ∧
      dequeued 0 Example.history <+: enqueued 0 Example.history :=
  ⟨by simp [Example.calls], by decide,
    C1_fifo_unsubscribed 0 Example.calls Example.history (by simp [Example.calls]) (by decide)⟩

/-- C2, amended (Subscribe drains the buffer, when `Consume` returns). In every state in which the
key `k` has no subscriber, for a consumer `c` whose `Consume(k, v)` returns for every value `v` of
the buffer of `k`: `Subscribe(k, c)` returns normally; the `Consume` calls made during it are
exactly `c.Consume(k, v)` for the values `v` of the buffer of `k`, once each, in buffer order; and
afterwards the entry of `k` has the subscriber `c` and an empty buffer. -/
theorem C2_subscribe_drains [DecidableEq Key] [IConsumer Key Value Consumer]
    (p : MultiQueueProcessor Key Value Consumer) (k : Key) (c : Consumer)
    (hs : p.subscriber k = none) (hc : ∀ v ∈ p.buffer k, IConsumer.Consume c k v = true) :
    ∃ o, p.Subscribe k (some c) = some o ∧
      o.result = .returns () ∧
      o.consumed = (p.buffer k).map (fun v => ⟨c, k, v⟩) ∧
      o.state.queues_ k = some ⟨[], some c⟩ :=
  ⟨_, Subscribe_unsubscribed p k c hs hc, rfl, rfl, store_queues_self _ _ _⟩

/-- Witness of C2: key 0 holds the buffer `[1, 2]` and has no subscriber, and the consumer 7
returns on 1 and on 2. -/
theorem C2_subscribe_drains_witness :
    Example.buffered.subscriber 0 = none ∧
      (∀ v ∈ Example.buffered.buffer 0, IConsumer.Consume 7 0 v = true) ∧
      ∃ o, Example.buffered.Subscribe 0 (some 7) = some o ∧
        o.result = .returns () ∧
        o.consumed = (Example.buffered.buffer 0).map (fun v => ⟨7, 0, v⟩) ∧
        o.state.queues_ 0 = some ⟨[], some 7⟩ :=
  ⟨by decide, by decide, C2_subscribe_drains Example.buffered 0 7 (by decide) (by decide)⟩

/-- Counterexample to C2 as stated: key 0 holds the buffer `[1, 2]` and has no subscriber, and
`Consume` of the consumer 1 throws on the value 1. There is no outcome of `Subscribe(0, 1)` that
returns normally after delivering 1 and 2 and leaves an empty buffer: the call is left by the
exception after the one call `Consume(0, 1)`, with the subscriber 1 attached and the value 2 still
in the buffer. -/
theorem C2_subscribe_drains_counterexample :
    Example.buffered.subscriber 0 = none ∧
      (¬ ∃ o, Example.buffered.Subscribe 0 (some 1) = some o ∧
        o.result = .returns () ∧
        o.consumed = (Example.buffered.buffer 0).map (fun v => ⟨1, 0, v⟩) ∧
        o.state.queues_ 0 = some ⟨[], some 1⟩) ∧
      ∃ o, Example.buffered.Subscribe 0 (some 1) = some o ∧
        o.result = .propagates ∧ o.consumed = [⟨1, 0, 1⟩] ∧
        o.state.queues_ 0 = some ⟨[2], some 1⟩ := by
  refine ⟨by decide, ?_, _, Subscribe_buffered_throws, rfl, rfl, by decide⟩
  rintro ⟨o, ho, hres, _⟩
  rw [Subscribe_buffered_throws] at ho
  cases ho
  cases hres

/-- C3, amended (push mode). In every state reachable from the empty processor in which the key
`k` has the subscriber `c`: `Enqueue(k, v)` does not throw `QueueFull`, makes exactly the one call
`c.Consume(k, v)` and leaves the processor as it was; it returns normally exactly when that call
returns (it is left by the exception of that call otherwise); the buffer of `k` is empty after it
when no call on the way to the state was left by an exception of `Consume`; and `Dequeue(k)`
throws the `std::logic_error` of `HasSubscriber`, returning no value. -/
theorem C3_push_mode [DecidableEq Key] [IConsumer Key Value Consumer]
    (p : MultiQueueProcessor Key Value Consumer)
    (k : Key) (c : Consumer) (v : Value) (hr : Reachable p) (hs : p.subscriber k = some c) :
    (p.Enqueue k v).result ≠ .throws .queueFull ∧
      (p.Enqueue k v).consumed = [⟨c, k, v⟩] ∧
      (p.Enqueue k v).state = p ∧
      ((p.Enqueue k v).result = .returns () ↔ IConsumer.Consume c k v = true) ∧
      ((p.Enqueue k v).result = .propagates ↔ IConsumer.Consume c k v = false) ∧
      (ReachableQuiet p → (p.Enqueue k v).state.buffer k = []) ∧
      (p.Dequeue k).result = .throws .hasSubscriber ∧
      Thrown.hasSubscriber.stdClass = .logic_error := by
  unfold subscriber at hs
  cases hq : p.queues_ k with
  | none => simp [hq] at hs
  | some q =>
    simp only [hq] at hs
    obtain ⟨_, h2, _⟩ := Invariant_of_Reachable hr k q hq
    have hlt : q.values_.length < MaxCapacity := h2 (by simp [hs])
    rw [Enqueue_push v hq hlt hs, Dequeue_subscribed hq hs]
    refine ⟨?_, rfl, rfl, ?_, ?_, ?_, rfl, rfl⟩
    · cases IConsumer.Consume c k v <;> simp
    · cases IConsumer.Consume c k v <;> simp
    · cases IConsumer.Consume c k v <;> simp
    · intro hquiet
      have hv : q.values_ = [] := Drained_of_ReachableQuiet hquiet k q hq (by simp [hs])
      simp [buffer, hq, hv]

/-- Witness of C3: the state after `Subscribe(0, 7)` on the empty processor, and the value 3, on
which the consumer 7 returns. -/
theorem C3_push_mode_witness :
    Reachable Example.subscribed ∧ Example.subscribed.subscriber 0 = some 7 ∧
      ((Example.subscribed.Enqueue 0 3).result ≠ .throws .queueFull ∧
        (Example.subscribed.Enqueue 0 3).consumed = [⟨7, 0, 3⟩] ∧
        (Example.subscribed.Enqueue 0 3).state = Example.subscribed ∧
        ((Example.subscribed.Enqueue 0 3).result = .returns () ↔
          IConsumer.Consume 7 0 3 = true) ∧
        ((Example.subscribed.Enqueue 0 3).result = .propagates ↔
          IConsumer.Consume 7 0 3 = false) ∧
        (ReachableQuiet Example.subscribed →
          (Example.subscribed.Enqueue 0 3).state.buffer 0 = []) ∧
        (Example.subscribed.Dequeue 0).result = .throws .hasSubscriber ∧
        Thrown.hasSubscriber.stdClass = .logic_error) :=
  ⟨Reachable_of_ReachableQuiet ReachableQuiet_subscribed, by decide,
    C3_push_mode Example.subscribed 0 7 3
      (Reachable_of_ReachableQuiet ReachableQuiet_subscribed) (by decide)⟩

/-- Counterexample to C3 as stated, in two reachable states in which key 0 has a subscriber.
After `Enqueue(0, 1)`, `Enqueue(0, 2)`, `Subscribe(0, 1)`, the consumer 1 throwing on 1, the
entry holds the subscriber 1 and the buffer `[2]`, and `Enqueue(0, 3)` returns but leaves the
buffer `[2]`, not empty. After `Subscribe(0, 7)`, `Enqueue(0, 7)` does not return normally: it is
left by the exception that the consumer 7 throws on 7. -/
theorem C3_push_mode_counterexample :
    (Reachable Example.stuck ∧ Example.stuck.subscriber 0 = some 1 ∧
        (Example.stuck.Enqueue 0 3).result = .returns () ∧
        (Example.stuck.Enqueue 0 3).state.buffer 0 = [2]) ∧
      (Reachable Example.subscribed ∧ Example.subscribed.subscriber 0 = some 7 ∧
        (Example.subscribed.Enqueue 0 7).result = .propagates) :=
  ⟨⟨Reachable_stuck, by decide, by decide, by decide⟩,
    ⟨Reachable_of_ReachableQuiet ReachableQuiet_subscribed, by decide, by decide⟩⟩

/-- C4 (capacity bound). In every state in which the key `k` has no subscriber and its buffer
holds exactly `MaxCapacity` values, `Enqueue(k, v)` throws `QueueFull` and leaves the processor,
hence the buffer, unchanged; the `Dequeue(k)` made next returns the head of the buffer; and the
`Enqueue(k, w)` made after that returns normally and leaves the rest of the buffer with `w` as
its last value. -/
theorem C4_capacity_bound [DecidableEq Key] [IConsumer Key Value Consumer]
    (p : MultiQueueProcessor Key Value Consumer)
    (k : Key) (v w : Value) (hs : p.subscriber k = none)
    (hn : (p.buffer k).length = MaxCapacity) :
    (p.Enqueue k v).result = .throws .queueFull ∧
      (p.Enqueue k v).state = p ∧
      ∃ front rest, p.buffer k = front :: rest ∧
        ((p.Enqueue k v).state.Dequeue k).result = .returns front ∧
        ((p.Enqueue k v).state.Dequeue k).state.buffer k = rest ∧
        (((p.Enqueue k v).state.Dequeue k).state.Enqueue k w).result = .returns () ∧
        (((p.Enqueue k v).state.Dequeue k).state.Enqueue k w).state.buffer k = rest ++ [w] ∧
        (rest ++ [w]).getLast? = some w := by
  unfold subscriber at hs
  unfold buffer at hn
  cases hq : p.queues_ k with
  | none => simp [hq, MaxCapacity] at hn
  | some q =>
    simp only [hq] at hs hn
    rw [Enqueue_full v hq (Nat.le_of_eq hn.symm)]
    refine ⟨rfl, rfl, ?_⟩
    match hv : q.values_ with
    | [] => simp [hv, MaxCapacity] at hn
    | [front] => simp [hv, MaxCapacity] at hn
    | front :: next :: rest =>
      refine ⟨front, next :: rest, by simp [buffer, hq, hv], ?_⟩
      rw [Dequeue_more hq hs hv]
      have hq1 : (p.store k (⟨next :: rest, none⟩ : SQueue Value Consumer)).queues_ k =
          some ⟨next :: rest, none⟩ := store_queues_self _ _ _
      have hlt : (⟨next :: rest, none⟩ : SQueue Value Consumer).values_.length < MaxCapacity := by
        rw [hv] at hn
        simp only [List.length_cons] at hn ⊢
        omega
      rw [Enqueue_append w hq1 hlt rfl]
      exact ⟨rfl, by simp [buffer, store_queues_self], rfl, by simp [buffer, store_queues_self],
        List.getLast?_concat _⟩

/-- Witness of C4: key 0 holds `MaxCapacity` zeros and has no subscriber. -/
theorem C4_capacity_bound_witness :
    Example.full.subscriber 0 = none ∧ (Example.full.buffer 0).length = MaxCapacity ∧
      ((Example.full.Enqueue 0 5).result = .throws .queueFull ∧
      (Example.full.Enqueue 0 5).state = Example.full ∧
      ∃ front rest, Example.full.buffer 0 = front :: rest ∧
        ((Example.full.Enqueue 0 5).state.Dequeue 0).result = .returns front ∧
        ((Example.full.Enqueue 0 5).state.Dequeue 0).state.buffer 0 = rest ∧
        (((Example.full.Enqueue 0 5).state.Dequeue 0).state.Enqueue 0 6).result = .returns () ∧
        (((Example.full.Enqueue 0 5).state.Dequeue 0).state.Enqueue 0 6).state.buffer 0 =
          rest ++ [6] ∧
        (rest ++ [6]).getLast? = some 6) :=
  ⟨by simp [Example.full, subscriber, store], by simp [Example.full, buffer, store],
    C4_capacity_bound Example.full 0 5 6 (by simp [Example.full, subscriber, store])
      (by simp [Example.full, buffer, store])⟩

/-- C5 (the result of Dequeue). In every state, `Dequeue(k)` throws the `std::invalid_argument`
of `UnknownKey` exactly when `k` has no entry; when `k` has an entry it throws the
`std::logic_error` of `HasSubscriber` exactly when a subscriber is attached; when there is none it
throws the `std::out_of_range` of `QueueEmpty` exactly when the buffer is empty; and otherwise it
returns the head of the buffer, the buffer becomes its tail, and the entry is gone from the table
exactly when that tail is empty (it holds the tail and no subscriber when it is not). -/
theorem C5_dequeue_result [DecidableEq Key] (p : MultiQueueProcessor Key Value Consumer)
    (k : Key) :
    ((p.Dequeue k).result = .throws .dequeueUnknownKey ↔ p.queues_ k = none) ∧
      (∀ q, p.queues_ k = some q →
        ((p.Dequeue k).result = .throws .hasSubscriber ↔ q.subscriber_ ≠ none) ∧
        (q.subscriber_ = none →
          ((p.Dequeue k).result = .throws .queueEmpty ↔ q.values_ = []) ∧
          ∀ front rest, q.values_ = front :: rest →
            (p.Dequeue k).result = .returns front ∧
            (p.Dequeue k).state.buffer k = rest ∧
            ((p.Dequeue k).state.queues_ k = none ↔ rest = []) ∧
            (rest ≠ [] → (p.Dequeue k).state.queues_ k = some ⟨rest, none⟩))) ∧
      Thrown.dequeueUnknownKey.stdClass = .invalid_argument ∧
      Thrown.hasSubscriber.stdClass = .logic_error ∧
      Thrown.queueEmpty.stdClass = .out_of_range := by
  refine ⟨?_, ?_, rfl, rfl, rfl⟩
  · cases hq : p.queues_ k with
    | none => simp [Dequeue_absent hq]
    | some q =>
      cases hs : q.subscriber_ with
      | some c => simp [Dequeue_subscribed hq hs]
      | none =>
        match hv : q.values_ with
        | [] => simp [Dequeue_empty hq hs hv]
        | [front] => simp [Dequeue_last hq hs hv]
        | front :: next :: rest => simp [Dequeue_more hq hs hv]
  · intro q hq
    cases hs : q.subscriber_ with
    | some c => simp [Dequeue_subscribed hq hs]
    | none =>
      match hv : q.values_ with
      | [] => simp [Dequeue_empty hq hs hv]
      | [front] => simp [Dequeue_last hq hs hv, buffer, erase_queues_self]
      | front :: next :: rest => simp [Dequeue_more hq hs hv, buffer, store_queues_self]

/-- C6, amended (the result of Unsubscribe). In every state, `Unsubscribe(k)` throws the
`std::invalid_argument` of `UnknownKey` exactly when `k` has no entry; when `k` has an entry it
throws the `std::logic_error` of `NoSubscriber` exactly when the entry has no subscriber; and
otherwise it returns normally, `k` has no subscriber afterwards, and `k` has no entry afterwards
exactly when its buffer was empty. That is the case when the state is reachable from the empty
processor without a call being left by an exception of `Consume`: `k` then has no entry, and a
second `Unsubscribe(k)` throws `UnknownKey`. -/
theorem C6_unsubscribe_result [DecidableEq Key] [IConsumer Key Value Consumer]
    (p : MultiQueueProcessor Key Value Consumer) (k : Key) :
    ((p.Unsubscribe k).result = .throws .unsubscribeUnknownKey ↔ p.queues_ k = none) ∧
      (∀ q, p.queues_ k = some q →
        ((p.Unsubscribe k).result = .throws .noSubscriber ↔ q.subscriber_ = none) ∧
        (q.subscriber_ ≠ none →
          (p.Unsubscribe k).result = .returns () ∧
          (p.Unsubscribe k).state.subscriber k = none ∧
          ((p.Unsubscribe k).state.queues_ k = none ↔ q.values_ = []) ∧
          (ReachableQuiet p →
            (p.Unsubscribe k).state.queues_ k = none ∧
            ((p.Unsubscribe k).state.Unsubscribe k).result = .throws .unsubscribeUnknownKey))) ∧
      Thrown.unsubscribeUnknownKey.stdClass = .invalid_argument ∧
      Thrown.noSubscriber.stdClass = .logic_error := by
  refine ⟨?_, ?_, rfl, rfl⟩
  · cases hq : p.queues_ k with
    | none => simp [Unsubscribe_absent hq]
    | some q =>
      cases hs : q.subscriber_ with
      | some c => simp [Unsubscribe_subscribed hq hs]
      | none => simp [Unsubscribe_unsubscribed hq hs]
  · intro q hq
    cases hs : q.subscriber_ with
    | none => simp [Unsubscribe_unsubscribed hq hs]
    | some c =>
      rw [Unsubscribe_subscribed hq hs]
      refine ⟨by simp, fun _ => ⟨rfl, ?_, ?_, ?_⟩⟩
      · cases hv : q.values_ with
        | nil => simp [UnaccessQueue_idle, subscriber, erase_queues_self]
        | cons a l =>
          rw [UnaccessQueue_buffered p k (by simp)]
          simp [subscriber, store_queues_self]
      · cases hv : q.values_ with
        | nil => simp [UnaccessQueue_idle, erase_queues_self]
        | cons a l =>
          rw [UnaccessQueue_buffered p k (by simp)]
          simp [store_queues_self]
      · intro hr
        have hv : q.values_ = [] := Drained_of_ReachableQuiet hr k q hq (by simp [hs])
        have hgone : (p.erase k).queues_ k = none := erase_queues_self p k
        simp only [hv, UnaccessQueue_idle]
        exact ⟨hgone, by rw [Unsubscribe_absent hgone]⟩

/-- Witness of C6: in the state after `Subscribe(0, 7)` on the empty processor, `Unsubscribe(0)`
returns normally, key 0 has no entry afterwards and a second `Unsubscribe(0)` throws
`UnknownKey`. -/
theorem C6_unsubscribe_result_witness :
    (Example.subscribed.Unsubscribe 0).result = .returns () ∧
      (Example.subscribed.Unsubscribe 0).state.queues_ 0 = none ∧
      ((Example.subscribed.Unsubscribe 0).state.Unsubscribe 0).result =
        .throws .unsubscribeUnknownKey :=
  have h := ((C6_unsubscribe_result Example.subscribed 0).2.1 ⟨[], some 7⟩ (by decide)).2
    (by decide)
  ⟨h.1, h.2.2.2 ReachableQuiet_subscribed⟩

/-- Counterexample to C6 as stated: the state after `Enqueue(0, 1)`, `Enqueue(0, 2)`,
`Subscribe(0, 1)`, the consumer 1 throwing on 1, is reachable and its entry of key 0 holds the
subscriber 1 and the buffer `[2]`. `Unsubscribe(0)` returns normally, but key 0 is not Absent
afterwards: its entry holds the buffer `[2]` without subscriber, and a second `Unsubscribe(0)`
throws `NoSubscriber`, not `UnknownKey`. -/
theorem C6_unsubscribe_result_counterexample :
    Reachable Example.stuck ∧ Example.stuck.queues_ 0 = some ⟨[2], some 1⟩ ∧
      (Example.stuck.Unsubscribe 0).result = .returns () ∧
      (Example.stuck.Unsubscribe 0).state.queues_ 0 = some ⟨[2], none⟩ ∧
      ((Example.stuck.Unsubscribe 0).state.Unsubscribe 0).result = .throws .noSubscriber :=
  ⟨Reachable_stuck, by decide, by decide, by decide, by decide⟩

/-- C7 (AlreadySubscribed). In every state and for every consumer pointer, `Subscribe(k, _)`
throws the `std::logic_error` of `AlreadySubscribed` exactly when `k` has an entry with a
subscriber attached; and when it does, the processor is left as it was (same table, hence the same
subscriber of `k`) and no `Consume` call was made. -/
theorem C7_already_subscribed [DecidableEq Key] [IConsumer Key Value Consumer]
    (p : MultiQueueProcessor Key Value Consumer)
    (k : Key) (consumer : Option Consumer) :
    ((∃ o, p.Subscribe k consumer = some o ∧ o.result = .throws .alreadySubscribed) ↔
        ∃ q, p.queues_ k = some q ∧ q.subscriber_ ≠ none) ∧
      (∀ o, p.Subscribe k consumer = some o → o.result = .throws .alreadySubscribed →
        o.state = p ∧ o.state.subscriber k = p.subscriber k ∧ o.consumed = []) ∧
      Thrown.alreadySubscribed.stdClass = .logic_error := by
  have key : ∀ o, p.Subscribe k consumer = some o → o.result = .throws .alreadySubscribed →
      (∃ q, p.queues_ k = some q ∧ q.subscriber_ ≠ none) ∧ o.state = p ∧ o.consumed = [] := by
    intro o ho hres
    cases hsub : p.subscriber k with
    | some c0 =>
      unfold subscriber at hsub
      cases hq : p.queues_ k with
      | none => simp [hq] at hsub
      | some q =>
        simp only [hq] at hsub
        rw [Subscribe_subscribed consumer hq hsub] at ho
        cases ho
        exact ⟨⟨q, rfl, by simp [hsub]⟩, rfl, rfl⟩
    | none =>
      cases consumer with
      | some c =>
        obtain ⟨rest, calls, completed, _, _, hs⟩ := Subscribe_drain p k c hsub
        rw [hs] at ho
        cases ho
        cases completed <;> simp at hres
      | none =>
        by_cases hb : p.buffer k = []
        · rw [Subscribe_null_empty p k hsub hb] at ho
          cases ho
          cases hres
        · rw [Subscribe_null_buffered p k hsub hb] at ho
          cases ho
  refine ⟨⟨?_, ?_⟩, ?_, rfl⟩
  · rintro ⟨o, ho, hres⟩
    exact (key o ho hres).1
  · rintro ⟨q, hq, hs⟩
    cases hs1 : q.subscriber_ with
    | none => exact absurd hs1 hs
    | some c0 => exact ⟨_, Subscribe_subscribed consumer hq hs1, rfl⟩
  · intro o ho hres
    obtain ⟨_, h1, h2⟩ := key o ho hres
    exact ⟨h1, by rw [h1], h2⟩

/-- C8, amended (the result of Enqueue). In every state, `Enqueue(k, v)` throws `QueueFull`
exactly when the buffer of `k` holds at least `MaxCapacity` values, which in a state reachable
from the empty processor means exactly `MaxCapacity` values; `QueueFull` is the only exception it
throws itself; it fails in one other way, being left by the exception of the `Consume` call that it
makes when `k` has a subscriber and the buffer is not full; and when it returns and `k` has no
subscriber, the buffer of `k` is the old buffer with `v` appended at the tail and no `Consume`
call was made. `MaxCapacity` is 1000. -/
theorem C8_enqueue_result [DecidableEq Key] [IConsumer Key Value Consumer]
    (p : MultiQueueProcessor Key Value Consumer) (k : Key) (v : Value) :
    ((p.Enqueue k v).result = .throws .queueFull ↔ MaxCapacity ≤ (p.buffer k).length) ∧
      (Reachable p →
        ((p.Enqueue k v).result = .throws .queueFull ↔ (p.buffer k).length = MaxCapacity)) ∧
      (∀ e, (p.Enqueue k v).result = .throws e → e = .queueFull) ∧
      ((p.Enqueue k v).result = .propagates ↔
        ∃ c, p.subscriber k = some c ∧ (p.buffer k).length < MaxCapacity ∧
          IConsumer.Consume c k v = false) ∧
      ((p.Enqueue k v).result = .returns () → p.subscriber k = none →
        (p.Enqueue k v).state.buffer k = p.buffer k ++ [v] ∧ (p.Enqueue k v).consumed = []) ∧
      MaxCapacity = 1000 := by
  have hfull : (p.Enqueue k v).result = .throws .queueFull ↔
      MaxCapacity ≤ (p.buffer k).length := by
    cases hq : p.queues_ k with
    | none => simp [Enqueue_absent v hq, buffer, hq, MaxCapacity]
    | some q =>
      by_cases hf : MaxCapacity ≤ q.values_.length
      · simp [Enqueue_full v hq hf, buffer, hq, hf]
      · have hlt : q.values_.length < MaxCapacity := Nat.lt_of_not_le hf
        cases hs : q.subscriber_ with
        | some c =>
          cases hcv : IConsumer.Consume c k v <;>
            simp [Enqueue_push v hq hlt hs, buffer, hq, hf, hcv]
        | none => simp [Enqueue_append v hq hlt hs, buffer, hq, hf]
  refine ⟨hfull, ?_, ?_, ?_, ?_, rfl⟩
  · intro hr
    rw [hfull]
    have hle : (p.buffer k).length ≤ MaxCapacity :=
      Invariant_buffer_le (Invariant_of_Reachable hr) k
    omega
  · intro e he
    cases hq : p.queues_ k with
    | none => simp [Enqueue_absent v hq] at he
    | some q =>
      by_cases hf : MaxCapacity ≤ q.values_.length
      · simp only [Enqueue_full v hq hf, Result.throws.injEq] at he
        exact he.symm
      · have hlt : q.values_.length < MaxCapacity := Nat.lt_of_not_le hf
        cases hs : q.subscriber_ with
        | some c =>
          cases hcv : IConsumer.Consume c k v <;>
            simp [Enqueue_push v hq hlt hs, hcv] at he
        | none => simp [Enqueue_append v hq hlt hs] at he
  · cases hq : p.queues_ k with
    | none => simp [Enqueue_absent v hq, subscriber, hq]
    | some q =>
      by_cases hf : MaxCapacity ≤ q.values_.length
      · have hnlt : ¬ q.values_.length < MaxCapacity := Nat.not_lt_of_le hf
        simp [Enqueue_full v hq hf, subscriber, buffer, hq, hnlt]
      · have hlt : q.values_.length < MaxCapacity := Nat.lt_of_not_le hf
        cases hs : q.subscriber_ with
        | some c =>
          cases hcv : IConsumer.Consume c k v <;>
            simp [Enqueue_push v hq hlt hs, subscriber, buffer, hq, hs, hlt, hcv]
        | none => simp [Enqueue_append v hq hlt hs, subscriber, hq, hs]
  · intro hres hsub
    unfold subscriber at hsub
    cases hq : p.queues_ k with
    | none => simp [Enqueue_absent v hq, buffer, hq, store_queues_self]
    | some q =>
      simp only [hq] at hsub
      by_cases hf : MaxCapacity ≤ q.values_.length
      · simp [Enqueue_full v hq hf] at hres
      · have hlt : q.values_.length < MaxCapacity := Nat.lt_of_not_le hf
        simp [Enqueue_append v hq hlt hsub, buffer, hq, store_queues_self]

/-- Witness of C8, on a buffer that is full and on one that is not: with `MaxCapacity` values
under key 0 and no subscriber `Enqueue(0, 5)` throws `QueueFull`; with the buffer `[1, 2]` and no
subscriber `Enqueue(0, 5)` leaves the buffer `[1, 2, 5]` and makes no `Consume` call. -/
theorem C8_enqueue_result_witness :
    (Example.full.Enqueue 0 5).result = .throws .queueFull ∧
      (Example.buffered.Enqueue 0 5).state.buffer 0 = Example.buffered.buffer 0 ++ [5] ∧
      (Example.buffered.Enqueue 0 5).consumed = [] :=
  ⟨(C8_enqueue_result Example.full 0 5).1.2 (by simp [Example.full, buffer, store]),
    (C8_enqueue_result Example.buffered 0 5).2.2.2.2.1 (by decide) (by decide)⟩

/-- Counterexample to C8 as stated (`QueueFull` is the only failure of `Enqueue`): in the state
after `Subscribe(0, 7)` on the empty processor the buffer of key 0 is empty, and `Enqueue(0, 7)`
neither returns normally nor throws `QueueFull`: it is left by the exception that the consumer 7
throws on the value 7. -/
theorem C8_enqueue_result_counterexample :
    Reachable Example.subscribed ∧ Example.subscribed.buffer 0 = [] ∧
      (Example.subscribed.Enqueue 0 7).result ≠ .returns () ∧
      (Example.subscribed.Enqueue 0 7).result ≠ .throws .queueFull ∧
      (Example.subscribed.Enqueue 0 7).result = .propagates :=
  ⟨Reachable_of_ReachableQuiet ReachableQuiet_subscribed, by decide, by decide, by decide,
    by decide⟩

/-- C9 (no idle entry). In every state reachable from the empty processor by a finite sequence of
`Subscribe`, `Unsubscribe`, `Enqueue` and `Dequeue` calls, whether they return or throw, a key has
an entry exactly when it has an entry with a buffered value or an attached subscriber: no entry
with an empty buffer and no subscriber is left behind. -/
theorem C9_no_idle_entry [DecidableEq Key] [IConsumer Key Value Consumer]
    (p : MultiQueueProcessor Key Value Consumer)
    (k : Key) (hr : Reachable p) :
    (∃ q, p.queues_ k = some q) ↔
      ∃ q, p.queues_ k = some q ∧ (q.values_ ≠ [] ∨ q.subscriber_ ≠ none) := by
  constructor
  · rintro ⟨q, hq⟩
    exact ⟨q, hq, (Invariant_of_Reachable hr k q hq).1⟩
  · rintro ⟨q, hq, _⟩
    exact ⟨q, hq⟩

/-- Witness of C9: the state after `Subscribe(0, 7)` on the empty processor, at key 0. -/
theorem C9_no_idle_entry_witness :
    Reachable Example.subscribed ∧
      ((∃ q, Example.subscribed.queues_ 0 = some q) ↔
        ∃ q, Example.subscribed.queues_ 0 = some q ∧
          (q.values_ ≠ [] ∨ q.subscriber_ ≠ none)) :=
  ⟨Reachable_of_ReachableQuiet ReachableQuiet_subscribed,
    C9_no_idle_entry Example.subscribed 0
      (Reachable_of_ReachableQuiet ReachableQuiet_subscribed)⟩

namespace MultiQueueProcessor

theorem drain_ids [IConsumer Key Value Consumer] (id : Key) (s : Option Consumer)
    (vs rest : List Value) (calls : List (ConsumeCall Key Value Consumer)) (completed : Bool)
    (h : drain id s vs = some (rest, calls, completed)) : ∀ c ∈ calls, c.id = id := by
  induction vs generalizing rest calls completed with
  | nil =>
    simp only [drain, Option.some.injEq, Prod.mk.injEq] at h
    rw [← h.2.1]
    simp
  | cons v vs ih =>
    cases s with
    | none => simp [drain] at h
    | some c0 =>
      by_cases hv : IConsumer.Consume c0 id v = true
      · simp only [drain, hv, if_true, Option.map_eq_some', Prod.mk.injEq] at h
        obtain ⟨r, hr, _, h2, _⟩ := h
        rw [← h2]
        intro c hc
        cases hc with
        | head => rfl
        | tail _ hmem => exact ih r.1 r.2.1 r.2.2 hr c hmem
      · have hv1 : IConsumer.Consume c0 id v = false := by simpa using hv
        simp only [drain, hv1, Bool.false_eq_true, if_false, Option.some.injEq,
          Prod.mk.injEq] at h
        rw [← h.2.1]
        simp

theorem Subscribe_consumed_ids [DecidableEq Key] [IConsumer Key Value Consumer]
    (p : MultiQueueProcessor Key Value Consumer)
    (id : Key) (consumer : Option Consumer) {o : Outcome Key Value Consumer Unit}
    (ho : p.Subscribe id consumer = some o) : ∀ c ∈ o.consumed, c.id = id := by
  unfold Subscribe at ho
  split at ho
  · cases ho
    simp
  · split at ho
    · cases ho
      simp
    · simp only at ho
      split at ho
      · cases ho
      · rename_i values_ calls completed hdrain
        cases ho
        exact drain_ids _ _ _ _ _ _ hdrain

theorem Enqueue_consumed_ids [DecidableEq Key] [IConsumer Key Value Consumer]
    (p : MultiQueueProcessor Key Value Consumer)
    (id : Key) (value : Value) : ∀ c ∈ (p.Enqueue id value).consumed, c.id = id := by
  unfold Enqueue
  split
  · simp
  · split
    · simp
    · split <;> simp

theorem Unsubscribe_consumed [DecidableEq Key] (p : MultiQueueProcessor Key Value Consumer)
    (id : Key) : (p.Unsubscribe id).consumed = [] := by
  unfold Unsubscribe
  split
  · rfl
  · split <;> rfl

theorem Dequeue_consumed [DecidableEq Key] (p : MultiQueueProcessor Key Value Consumer)
    (id : Key) : (p.Dequeue id).consumed = [] := by
  unfold Dequeue
  split
  · rfl
  · split
    · rfl
    · split <;> rfl

theorem Reachable_one : Reachable Example.one := by
  have h : Reachable ((empty : MultiQueueProcessor Nat Nat Nat).Enqueue 0 1).state :=
    Reachable_Enqueue Reachable_empty 0 1
  rw [Enqueue_absent 1 rfl] at h
  exact h

/-- The only way `Subscribe` throws: the key has a subscriber, and nothing was changed. -/
theorem Subscribe_throws [DecidableEq Key] [IConsumer Key Value Consumer]
    {p : MultiQueueProcessor Key Value Consumer}
    {id : Key} {consumer : Option Consumer} {o : Outcome Key Value Consumer Unit} {t : Thrown}
    (ho : p.Subscribe id consumer = some o) (hres : o.result = .throws t) :
    o = ⟨p, .throws .alreadySubscribed, []⟩ := by
  cases hsub : p.subscriber id with
  | some c0 =>
    unfold subscriber at hsub
    cases hq : p.queues_ id with
    | none => simp [hq] at hsub
    | some q =>
      simp only [hq] at hsub
      rw [Subscribe_subscribed consumer hq hsub] at ho
      cases ho
      rfl
  | none =>
    cases consumer with
    | some c =>
      obtain ⟨rest, calls, completed, _, _, hs⟩ := Subscribe_drain p id c hsub
      rw [hs] at ho
      cases ho
      cases completed <;> simp at hres
    | none =>
      by_cases hb : p.buffer id = []
      · rw [Subscribe_null_empty p id hsub hb] at ho
        cases ho
        cases hres
      · rw [Subscribe_null_buffered p id hsub hb] at ho
        cases ho

/-! ### Values are neither lost nor duplicated -/

theorem unsubscribedEntry_cons (v : Value) (vs : List Value) :
    (unsubscribedEntry (v :: vs) : Option (SQueue Value Consumer)) = some ⟨v :: vs, none⟩ := rfl

theorem unsubscribedEntry_concat (vs : List Value) (w : Value) :
    (unsubscribedEntry (vs ++ [w]) : Option (SQueue Value Consumer)) =
      some ⟨vs ++ [w], none⟩ := by
  cases vs <;> rfl

theorem Enqueue_unsubscribedEntry [DecidableEq Key] [IConsumer Key Value Consumer]
    {p : MultiQueueProcessor Key Value Consumer} {x : Key} {vs : List Value} (w : Value)
    (hq : p.queues_ x = unsubscribedEntry vs) (hlt : vs.length < MaxCapacity) :
    p.Enqueue x w = ⟨p.store x ⟨vs ++ [w], none⟩, .returns (), []⟩ := by
  cases vs with
  | nil => exact Enqueue_absent w hq
  | cons v vs => exact Enqueue_append w hq hlt rfl

theorem Dequeue_unsubscribedEntry [DecidableEq Key]
    {p : MultiQueueProcessor Key Value Consumer} {x : Key} {v : Value} {vs : List Value}
    (hq : p.queues_ x = unsubscribedEntry (v :: vs)) :
    (p.Dequeue x).result = .returns v ∧ (p.Dequeue x).consumed = [] ∧
      (p.Dequeue x).state.queues_ x = unsubscribedEntry vs := by
  cases vs with
  | nil =>
    rw [Dequeue_last hq rfl rfl]
    exact ⟨rfl, rfl, erase_queues_self _ _⟩
  | cons v1 vs =>
    rw [Dequeue_more hq rfl rfl]
    exact ⟨rfl, rfl, store_queues_self _ _ _⟩

theorem run_append [DecidableEq Key] [IConsumer Key Value Consumer]
    {p p1 p2 : MultiQueueProcessor Key Value Consumer}
    {ops1 ops2 : List (Op Key Value Consumer)} {es1 es2 : List (Event Key Value Consumer)}
    (h1 : p.run ops1 = some (p1, es1)) (h2 : p1.run ops2 = some (p2, es2)) :
    p.run (ops1 ++ ops2) = some (p2, es1 ++ es2) := by
  induction ops1 generalizing p es1 with
  | nil =>
    simp only [run, Option.some.injEq, Prod.mk.injEq] at h1
    obtain ⟨ha, hb⟩ := h1
    subst ha hb
    simpa using h2
  | cons op ops ih =>
    obtain ⟨pa, ea, esa, hstepa, hruna, hes⟩ := run_cons_eq_some h1
    subst hes
    simp [run, hstepa, ih hruna]

theorem run_enqueues [DecidableEq Key] [IConsumer Key Value Consumer] (x : Key) (ws : List Value) :
    ∀ (vs : List Value) (p : MultiQueueProcessor Key Value Consumer),
      p.queues_ x = unsubscribedEntry vs → vs.length + ws.length ≤ MaxCapacity →
      ∃ p2, p.run (ws.map fun w => .Enqueue x w) =
          some (p2, ws.map fun w => ⟨.Enqueue x w, .returns none, []⟩) ∧
        p2.queues_ x = unsubscribedEntry (vs ++ ws) := by
  induction ws with
  | nil =>
    intro vs p hq _
    exact ⟨p, rfl, by simpa using hq⟩
  | cons w ws ih =>
    intro vs p hq hlen
    simp only [List.length_cons] at hlen
    have hstep := Enqueue_unsubscribedEntry (p := p) w hq (by omega)
    have hq1 : (p.store x (⟨vs ++ [w], none⟩ : SQueue Value Consumer)).queues_ x =
        unsubscribedEntry (vs ++ [w]) := by
      rw [store_queues_self, unsubscribedEntry_concat]
    obtain ⟨p2, hrun, hq2⟩ := ih (vs ++ [w]) _ hq1
      (by simp only [List.length_append, List.length_singleton]; omega)
    refine ⟨p2, ?_, by simpa using hq2⟩
    simp [run, step, hstep, hrun, Result.void]

theorem run_dequeues [DecidableEq Key] [IConsumer Key Value Consumer] (x : Key) (vs : List Value) :
    ∀ (rest : List Value) (p : MultiQueueProcessor Key Value Consumer),
      p.queues_ x = unsubscribedEntry (vs ++ rest) →
      ∃ p2, p.run (List.replicate vs.length (.Dequeue x)) =
          some (p2, vs.map fun v => ⟨.Dequeue x, .returns (some v), []⟩) ∧
        p2.queues_ x = unsubscribedEntry rest := by
  induction vs with
  | nil =>
    intro rest p hq
    exact ⟨p, rfl, by simpa using hq⟩
  | cons v vs ih =>
    intro rest p hq
    obtain ⟨hres, hcs, hq1⟩ := Dequeue_unsubscribedEntry (p := p) (x := x) hq
    obtain ⟨p2, hrun, hq2⟩ := ih rest _ hq1
    refine ⟨p2, ?_, hq2⟩
    simp [List.replicate_succ, run, step, hres, hcs, hrun, Result.value]

theorem run_single [DecidableEq Key] [IConsumer Key Value Consumer]
    {p p1 : MultiQueueProcessor Key Value Consumer}
    {op : Op Key Value Consumer} {e : Event Key Value Consumer}
    (h : p.step op = some (p1, e)) : p.run [op] = some (p1, [e]) := by
  simp [run, h]

/-- The example trace for a capacity `n + 1` that is the capacity of the code. -/
theorem run_exampleTrace [DecidableEq Key] [IConsumer Key ℕ Consumer]
    (x : Key) (n : Nat) (hn : n + 1 = MaxCapacity) :
    ((empty : MultiQueueProcessor Key Nat Consumer).run (exampleTraceCalls x (n + 1))).map
        (fun r => r.2.map fun e => e.result) =
      some (exampleTraceResults (n + 1)) := by
  have hr1 : List.range' 1 (n + 1) = 1 :: List.range' 2 n := List.range'_succ 1 n 1
  have hr2 : List.range' 2 n ++ [n + 2] = List.range' 2 (n + 1) := by
    rw [List.range'_concat, Nat.one_mul, Nat.add_comm 2 n]
  -- the first `n + 1` calls of `Enqueue`
  obtain ⟨p1, hrun1, hq1⟩ := run_enqueues x (List.range' 1 (n + 1)) []
    (empty : MultiQueueProcessor Key Nat Consumer) rfl
    (by simp only [List.length_nil, List.length_range']; omega)
  rw [List.nil_append, hr1] at hq1
  -- the call of `Enqueue` on the full buffer
  have h2 : p1.Enqueue x (n + 1 + 1) = ⟨p1, .throws .queueFull, []⟩ :=
    Enqueue_full _ hq1
      (by simp only [List.length_cons, List.length_range']; omega)
  -- `Dequeue`, then `Enqueue` again
  obtain ⟨h3r, h3c, hq3⟩ := Dequeue_unsubscribedEntry hq1
  have h4 := Enqueue_unsubscribedEntry (n + 1 + 1) hq3
    (by simp only [List.length_range']; omega)
  have hq4 : ((p1.Dequeue x).state.store x
      (⟨List.range' 2 n ++ [n + 1 + 1], none⟩ : SQueue Nat Consumer)).queues_ x =
      unsubscribedEntry (List.range' 2 (n + 1) ++ []) := by
    rw [store_queues_self, List.append_nil, ← hr2, unsubscribedEntry_concat]
  have hmid : p1.run [.Enqueue x (n + 1 + 1), .Dequeue x, .Enqueue x (n + 1 + 1)] =
      some ((p1.Dequeue x).state.store x ⟨List.range' 2 n ++ [n + 1 + 1], none⟩,
        [⟨.Enqueue x (n + 1 + 1), .throws .queueFull, []⟩,
          ⟨.Dequeue x, .returns (some 1), []⟩,
          ⟨.Enqueue x (n + 1 + 1), .returns none, []⟩]) := by
    simp [run, step, h2, h3r, h3c, h4, Result.void, Result.value]
  -- the `n + 1` calls of `Dequeue` that empty the buffer, and the last one
  obtain ⟨p5, hrun5, hq5⟩ := run_dequeues x (List.range' 2 (n + 1)) [] _ hq4
  have h6 : p5.run [.Dequeue x] =
      some (p5, [⟨.Dequeue x, .throws .dequeueUnknownKey, []⟩]) :=
    run_single (by simp [step, Dequeue_absent hq5, Result.value])
  have hall := run_append (run_append (run_append hrun1 hmid) hrun5) h6
  rw [List.length_range'] at hall
  unfold exampleTraceCalls exampleTraceResults
  rw [hall]
  simp [Function.comp_def, List.map_const]

end MultiQueueProcessor

/-! ## The claims of the specification, continued -/

/-- C11 (example trace at the capacity of the code, `N = MaxCapacity = 1000`). On the empty
processor and one key `x`: `Enqueue(x, 1)`, ..., `Enqueue(x, N)` all return; `Enqueue(x, N + 1)`
throws `QueueFull`; `Dequeue(x)` returns 1; `Enqueue(x, N + 1)` now returns; the next `N` calls
of `Dequeue(x)` return 2, 3, ..., `N + 1` in that order; and the `Dequeue(x)` after that throws
`UnknownKey` (the emptied entry was erased), not `QueueEmpty`. -/
theorem C11_example_trace [DecidableEq Key] [IConsumer Key ℕ Consumer] (x : Key) :
    ((empty : MultiQueueProcessor Key Nat Consumer).run
          (exampleTraceCalls x MaxCapacity)).map (fun r => r.2.map fun e => e.result) =
        some (exampleTraceResults MaxCapacity) ∧
      (exampleTraceResults MaxCapacity).getLast? = some (.throws .dequeueUnknownKey) ∧
      MaxCapacity = 1000 :=
  ⟨run_exampleTrace x 999 rfl, List.getLast?_concat _, rfl⟩

/-- C12 (transitions out of Absent). In every state in which the key `k` has no entry, for every
value `v` and every consumer `c`: `Enqueue(k, v)` returns normally and leaves `k` with an entry
whose buffer is exactly `[v]` and that has no subscriber; and `Subscribe(k, c)` returns normally,
makes no `Consume` call and leaves `k` with an entry whose subscriber is `c` and whose buffer is
empty. -/
theorem C12_absent_transitions [DecidableEq Key] [IConsumer Key Value Consumer]
    (p : MultiQueueProcessor Key Value Consumer)
    (k : Key) (v : Value) (c : Consumer) (hk : p.queues_ k = none) :
    ((p.Enqueue k v).result = .returns () ∧
        (p.Enqueue k v).state.queues_ k = some ⟨[v], none⟩) ∧
      ∃ o, p.Subscribe k (some c) = some o ∧ o.result = .returns () ∧ o.consumed = [] ∧
        o.state.queues_ k = some ⟨[], some c⟩ := by
  refine ⟨?_, _, Subscribe_absent c hk, rfl, rfl, store_queues_self _ _ _⟩
  rw [Enqueue_absent v hk]
  exact ⟨rfl, store_queues_self _ _ _⟩

/-- Witness of C12: the empty processor, key 0, value 1, consumer 7. -/
theorem C12_absent_transitions_witness :
    (empty : MultiQueueProcessor Nat Nat Nat).queues_ 0 = none ∧
      (((empty : MultiQueueProcessor Nat Nat Nat).Enqueue 0 1).result = .returns () ∧
        ((empty : MultiQueueProcessor Nat Nat Nat).Enqueue 0 1).state.queues_ 0 =
          some ⟨[1], none⟩) ∧
      ∃ o, (empty : MultiQueueProcessor Nat Nat Nat).Subscribe 0 (some 7) = some o ∧
        o.result = .returns () ∧ o.consumed = [] ∧ o.state.queues_ 0 = some ⟨[], some 7⟩ :=
  ⟨rfl, C12_absent_transitions empty 0 1 7 rfl⟩

/-- C14 (capacity invariant). In every state reachable from the empty processor by a finite
sequence of public operations, the buffer of every entry holds at most `MaxCapacity` values, and
`MaxCapacity` is 1000. -/
theorem C14_capacity_invariant [DecidableEq Key] [IConsumer Key Value Consumer]
    (p : MultiQueueProcessor Key Value Consumer)
    (k : Key) (q : SQueue Value Consumer) (hr : Reachable p) (hq : p.queues_ k = some q) :
    q.values_.length ≤ MaxCapacity ∧ MaxCapacity = 1000 :=
  ⟨(Invariant_of_Reachable hr k q hq).2.2, rfl⟩

/-- Witness of C14: the state after `Enqueue(0, 1)` on the empty processor, at key 0. -/
theorem C14_capacity_invariant_witness :
    Reachable Example.one ∧ Example.one.queues_ 0 = some ⟨[1], none⟩ ∧
      ((⟨[1], none⟩ : SQueue Nat Nat).values_.length ≤ MaxCapacity ∧ MaxCapacity = 1000) :=
  ⟨Reachable_one, by decide,
    C14_capacity_invariant Example.one 0 ⟨[1], none⟩ Reachable_one (by decide)⟩

/-- C16 (QueueEmpty is unreachable). In every state reachable from the empty processor by a
finite sequence of public operations, `Dequeue(k)` does not throw the `std::out_of_range` of
`QueueEmpty`: when it throws, it throws `UnknownKey` or `HasSubscriber`. -/
theorem C16_queue_empty_unreachable [DecidableEq Key] [IConsumer Key Value Consumer]
    (p : MultiQueueProcessor Key Value Consumer) (k : Key) (hr : Reachable p) :
    (p.Dequeue k).result ≠ .throws .queueEmpty ∧
      (∀ t, (p.Dequeue k).result = .throws t → t = .dequeueUnknownKey ∨ t = .hasSubscriber) ∧
      Thrown.queueEmpty.stdClass = .out_of_range := by
  have key : ∀ t, (p.Dequeue k).result = .throws t →
      t = .dequeueUnknownKey ∨ t = .hasSubscriber := by
    intro t ht
    cases hq : p.queues_ k with
    | none =>
      simp only [Dequeue_absent hq, Result.throws.injEq] at ht
      exact Or.inl ht.symm
    | some q =>
      obtain ⟨h1, _, _⟩ := Invariant_of_Reachable hr k q hq
      cases hs : q.subscriber_ with
      | some c =>
        simp only [Dequeue_subscribed hq hs, Result.throws.injEq] at ht
        exact Or.inr ht.symm
      | none =>
        match hv : q.values_ with
        | [] => simp [hv, hs] at h1
        | [front] => simp [Dequeue_last hq hs hv] at ht
        | front :: next :: rest => simp [Dequeue_more hq hs hv] at ht
  refine ⟨?_, key, rfl⟩
  intro h
  cases key _ h with
  | inl h1 => cases h1
  | inr h1 => cases h1

/-- Witness of C16: the state after `Enqueue(0, 1)` on the empty processor, at key 0. -/
theorem C16_queue_empty_unreachable_witness :
    Reachable Example.one ∧
      ((Example.one.Dequeue 0).result ≠ .throws .queueEmpty ∧
        (∀ t, (Example.one.Dequeue 0).result = .throws t →
          t = .dequeueUnknownKey ∨ t = .hasSubscriber) ∧
        Thrown.queueEmpty.stdClass = .out_of_range) :=
  ⟨Reachable_one, C16_queue_empty_unreachable Example.one 0 Reachable_one⟩

/-- C17 (failure atomicity). In every state reachable from the empty processor, whenever
`Subscribe`, `Unsubscribe`, `Enqueue` or `Dequeue` throws, the processor after the call is the
processor before it (same keys, same buffers, same subscribers) and no `Consume` call was
made. -/
theorem C17_failure_atomicity [DecidableEq Key] [IConsumer Key Value Consumer]
    (p : MultiQueueProcessor Key Value Consumer)
    (k : Key) (consumer : Option Consumer) (v : Value) (hr : Reachable p) :
    (∀ o t, p.Subscribe k consumer = some o → o.result = .throws t →
        o.state = p ∧ o.consumed = []) ∧
      (∀ t, (p.Unsubscribe k).result = .throws t →
        (p.Unsubscribe k).state = p ∧ (p.Unsubscribe k).consumed = []) ∧
      (∀ t, (p.Enqueue k v).result = .throws t →
        (p.Enqueue k v).state = p ∧ (p.Enqueue k v).consumed = []) ∧
      (∀ t, (p.Dequeue k).result = .throws t →
        (p.Dequeue k).state = p ∧ (p.Dequeue k).consumed = []) := by
  refine ⟨?_, ?_, ?_, ?_⟩
  · intro o t ho hres
    rw [Subscribe_throws ho hres]
    exact ⟨rfl, rfl⟩
  · intro t ht
    cases hq : p.queues_ k with
    | none =>
      rw [Unsubscribe_absent hq]
      exact ⟨rfl, rfl⟩
    | some q =>
      obtain ⟨h1, _, _⟩ := Invariant_of_Reachable hr k q hq
      cases hs : q.subscriber_ with
      | some c => simp [Unsubscribe_subscribed hq hs] at ht
      | none =>
        have hv : q.values_ ≠ [] := by
          cases h1 with
          | inl h => exact h
          | inr h => exact absurd hs h
        rw [Unsubscribe_unsubscribed hq hs, UnaccessQueue_buffered p k hv, store_same hq]
        exact ⟨rfl, rfl⟩
  · intro t ht
    cases hq : p.queues_ k with
    | none => simp [Enqueue_absent v hq] at ht
    | some q =>
      by_cases hf : MaxCapacity ≤ q.values_.length
      · rw [Enqueue_full v hq hf]
        exact ⟨rfl, rfl⟩
      · have hlt : q.values_.length < MaxCapacity := Nat.lt_of_not_le hf
        cases hs : q.subscriber_ with
        | some c =>
          cases hcv : IConsumer.Consume c k v <;>
            simp [Enqueue_push v hq hlt hs, hcv] at ht
        | none => simp [Enqueue_append v hq hlt hs] at ht
  · intro t ht
    cases hq : p.queues_ k with
    | none =>
      rw [Dequeue_absent hq]
      exact ⟨rfl, rfl⟩
    | some q =>
      obtain ⟨h1, _, _⟩ := Invariant_of_Reachable hr k q hq
      cases hs : q.subscriber_ with
      | some c =>
        rw [Dequeue_subscribed hq hs]
        exact ⟨rfl, rfl⟩
      | none =>
        match hv : q.values_ with
        | [] => simp [hv, hs] at h1
        | [front] => simp [Dequeue_last hq hs hv] at ht
        | front :: next :: rest => simp [Dequeue_more hq hs hv] at ht

/-- Witness of C17: the state after `Subscribe(0, 7)` on the empty processor, at key 0, where a
second `Subscribe` and `Dequeue` throw. -/
theorem C17_failure_atomicity_witness :
    Reachable Example.subscribed ∧
      ((∀ o t, Example.subscribed.Subscribe 0 (some 8) = some o → o.result = .throws t →
          o.state = Example.subscribed ∧ o.consumed = []) ∧
        (∀ t, (Example.subscribed.Unsubscribe 0).result = .throws t →
          (Example.subscribed.Unsubscribe 0).state = Example.subscribed ∧
            (Example.subscribed.Unsubscribe 0).consumed = []) ∧
        (∀ t, (Example.subscribed.Enqueue 0 3).result = .throws t →
          (Example.subscribed.Enqueue 0 3).state = Example.subscribed ∧
            (Example.subscribed.Enqueue 0 3).consumed = []) ∧
        (∀ t, (Example.subscribed.Dequeue 0).result = .throws t →
          (Example.subscribed.Dequeue 0).state = Example.subscribed ∧
            (Example.subscribed.Dequeue 0).consumed = [])) :=
  ⟨Reachable_of_ReachableQuiet ReachableQuiet_subscribed,
    C17_failure_atomicity Example.subscribed 0 (some 8) 3
      (Reachable_of_ReachableQuiet ReachableQuiet_subscribed)⟩

/-- C18 (key isolation). In every state, for each of `Subscribe`, `Unsubscribe`, `Enqueue` and
`Dequeue` called on the key `k` and for every key `j` other than `k`: the entry of `j` (whether
there is one, its buffer and its subscriber) is the same after the call as before it, whether the
call returns or throws, and every `Consume` call made during the call has the key `k`. -/
theorem C18_key_isolation [DecidableEq Key] [IConsumer Key Value Consumer]
    (p : MultiQueueProcessor Key Value Consumer)
    (k j : Key) (consumer : Option Consumer) (v : Value) (hj : j ≠ k) :
    (∀ o, p.Subscribe k consumer = some o →
        o.state.queues_ j = p.queues_ j ∧ ∀ c ∈ o.consumed, c.id = k) ∧
      ((p.Unsubscribe k).state.queues_ j = p.queues_ j ∧
        ∀ c ∈ (p.Unsubscribe k).consumed, c.id = k) ∧
      ((p.Enqueue k v).state.queues_ j = p.queues_ j ∧
        ∀ c ∈ (p.Enqueue k v).consumed, c.id = k) ∧
      ((p.Dequeue k).state.queues_ j = p.queues_ j ∧
        ∀ c ∈ (p.Dequeue k).consumed, c.id = k) := by
  refine ⟨fun o ho =>
      ⟨Subscribe_queues_ne p consumer hj ho, Subscribe_consumed_ids p k consumer ho⟩,
    ⟨Unsubscribe_queues_ne p hj, ?_⟩,
    ⟨Enqueue_queues_ne p v hj, Enqueue_consumed_ids p k v⟩,
    ⟨Dequeue_queues_ne p hj, ?_⟩⟩
  · simp [Unsubscribe_consumed]
  · simp [Dequeue_consumed]

/-- Witness of C18: key 0 holds the buffer `[1, 2]`; the calls are made on key 0 and the entry
of key 1 is looked at. -/
theorem C18_key_isolation_witness :
    (1 : Nat) ≠ 0 ∧
      ((∀ o, Example.buffered.Subscribe 0 (some 7) = some o →
          o.state.queues_ 1 = Example.buffered.queues_ 1 ∧ ∀ c ∈ o.consumed, c.id = 0) ∧
        ((Example.buffered.Unsubscribe 0).state.queues_ 1 = Example.buffered.queues_ 1 ∧
          ∀ c ∈ (Example.buffered.Unsubscribe 0).consumed, c.id = 0) ∧
        ((Example.buffered.Enqueue 0 3).state.queues_ 1 = Example.buffered.queues_ 1 ∧
          ∀ c ∈ (Example.buffered.Enqueue 0 3).consumed, c.id = 0) ∧
        ((Example.buffered.Dequeue 0).state.queues_ 1 = Example.buffered.queues_ 1 ∧
          ∀ c ∈ (Example.buffered.Dequeue 0).consumed, c.id = 0)) :=
  ⟨by decide, C18_key_isolation Example.buffered 0 1 (some 7) 3 (by decide)⟩

/-- C19 (round trips through Absent). In every state in which the key `k` has no entry:
`Enqueue(k, v)` and then `Dequeue(k)` both return normally, the `Dequeue` returns `v`, and the
processor is as it was at the start; and `Subscribe(k, c)` and then `Unsubscribe(k)` both return
normally, make no `Consume` call, and the processor is as it was at the start. -/
theorem C19_round_trips [DecidableEq Key] [IConsumer Key Value Consumer]
    (p : MultiQueueProcessor Key Value Consumer)
    (k : Key) (v : Value) (c : Consumer) (hk : p.queues_ k = none) :
    ((p.Enqueue k v).result = .returns () ∧
        ((p.Enqueue k v).state.Dequeue k).result = .returns v ∧
        ((p.Enqueue k v).state.Dequeue k).state = p) ∧
      ∃ o, p.Subscribe k (some c) = some o ∧ o.result = .returns () ∧ o.consumed = [] ∧
        (o.state.Unsubscribe k).result = .returns () ∧
        (o.state.Unsubscribe k).consumed = [] ∧
        (o.state.Unsubscribe k).state = p := by
  constructor
  · rw [Enqueue_absent v hk]
    have hq : (p.store k (⟨[v], none⟩ : SQueue Value Consumer)).queues_ k = some ⟨[v], none⟩ :=
      store_queues_self _ _ _
    rw [Dequeue_last hq rfl rfl, erase_store, erase_absent hk]
    exact ⟨rfl, rfl, rfl⟩
  · refine ⟨_, Subscribe_absent c hk, rfl, rfl, ?_⟩
    · have hq : (p.store k (⟨[], some c⟩ : SQueue Value Consumer)).queues_ k =
          some ⟨[], some c⟩ := store_queues_self _ _ _
      simp only []
      rw [Unsubscribe_subscribed hq rfl, UnaccessQueue_idle, erase_store, erase_absent hk]
      exact ⟨rfl, rfl, rfl⟩

/-- Witness of C19: the empty processor, key 0, value 1, consumer 7. -/
theorem C19_round_trips_witness :
    (empty : MultiQueueProcessor Nat Nat Nat).queues_ 0 = none ∧
      (((empty : MultiQueueProcessor Nat Nat Nat).Enqueue 0 1).result = .returns () ∧
        (((empty : MultiQueueProcessor Nat Nat Nat).Enqueue 0 1).state.Dequeue 0).result =
          .returns 1 ∧
        (((empty : MultiQueueProcessor Nat Nat Nat).Enqueue 0 1).state.Dequeue 0).state =
          empty) ∧
      ∃ o, (empty : MultiQueueProcessor Nat Nat Nat).Subscribe 0 (some 7) = some o ∧
        o.result = .returns () ∧ o.consumed = [] ∧
        (o.state.Unsubscribe 0).result = .returns () ∧
        (o.state.Unsubscribe 0).consumed = [] ∧
        (o.state.Unsubscribe 0).state = empty :=
  ⟨rfl, C19_round_trips empty 0 1 7 rfl⟩

end MQP
